import Mathlib

/-!
Formal model of the AS207960 `whois-email` SMTP relay (Rust sources in
`src/`): the reply/command codec (`src/proto.rs`), the server session state
machine (`src/server.rs`), and the outbound delivery pipeline
(`src/client.rs`).  Each claim C1..C10 of the specification is settled by a
theorem below, over shallow embeddings of the relevant Rust functions.
Machine integers (u16, usize) are modelled as `Nat`; bytes as `Nat`;
fallible code returns `Option`/`Except`.
-/

namespace WhoisEmail

/-! ## Delivery errors (src/client.rs, enum SendingError) -/

inductive SendingError where
  | invalidAddress
  | invalidMessage (msg : String)
  | connectionError (msg : String)
  | transientError (msg : String)
  | permanentError (msg : String)
deriving DecidableEq, Repr

/-- Outcome of one `try_send_mail` attempt against one MX target
(`Result<(), SendingError>` in the source). -/
abbrev AttemptResult := Except SendingError Unit

/-- The per-group MX attempt loop of `send_mail` (src/client.rs lines
124-151).  `lastError` is the mutable `last_error` variable.  On `Ok` the
source breaks out of the loop *without clearing* `last_error`; on
permanent/transient errors it records the error and breaks; on any other
error (connection errors, etc.) it records the error and tries the next
MX target.  The returned value is the final `last_error`. -/
def mxAttemptLoop (lastError : Option SendingError) :
    List AttemptResult → Option SendingError
  | [] => lastError
  | .ok _ :: _ => lastError
  | .error (.permanentError s) :: _ => some (.permanentError s)
  | .error (.transientError s) :: _ => some (.transientError s)
  | .error e :: rest => mxAttemptLoop (some e) rest

/-- One recipient group of `send_mail`: the indices of its recipients in
the caller's original list, together with the outcomes the per-target
attempts would produce, in MX-set order. -/
structure RecipientGroup where
  indexes : List Nat
  attempts : List AttemptResult
deriving Repr

/-- After the MX loop of one group: if `last_error` is set, every
recipient index of the group is overwritten with that error
(src/client.rs lines 146-150). -/
def applyGroupVerdict (out : List AttemptResult) (g : RecipientGroup) :
    List AttemptResult :=
  match mxAttemptLoop none g.attempts with
  | none => out
  | some e => g.indexes.foldl (fun o i => o.set i (.error e)) out

/-- The result fan-out of `send_mail` over its recipient groups:
`out_list` starts as all-`Ok` (src/client.rs lines 52-55) and each group
is processed in order. -/
def sendMailResults (n : Nat) (groups : List RecipientGroup) :
    List AttemptResult :=
  groups.foldl applyGroupVerdict (List.replicate n (.ok ()))

/-! ## Command codec (src/proto.rs, SMTPCommand) -/

/-- Rust `char::is_ascii_whitespace`: space, tab, LF, FF, CR. -/
def isAsciiWhitespace (c : Char) : Bool :=
  c = ' ' || c = '\t' || c = '\n' || c = '\x0c' || c = '\r'

/-- Worker for `str::split_ascii_whitespace`: `cur` is the current token
read so far, in reverse. -/
def splitWsGo : List Char → List Char → List (List Char)
  | cur, [] => if cur.isEmpty then [] else [cur.reverse]
  | cur, c :: cs =>
    if isAsciiWhitespace c then
      if cur.isEmpty then splitWsGo [] cs else cur.reverse :: splitWsGo [] cs
    else splitWsGo (c :: cur) cs

/-- Rust `str::split_ascii_whitespace` (collected to a list). -/
def splitAsciiWs (s : String) : List String :=
  (splitWsGo [] s.data).map String.mk

/-- Rust `str::to_uppercase`, restricted to its ASCII behaviour (the
protocol verbs at issue are ASCII; non-ASCII case mapping is not
modelled). -/
def upperAscii (s : String) : String :=
  String.mk (s.data.map Char.toUpper)

structure SMTPCommand where
  verb : String
  args : List String
deriving DecidableEq, Repr

/-- `SMTPCommand::parse` (src/proto.rs lines 99-105): the first
whitespace token uppercased is the verb, and the remaining tokens are
collected *reversed* (`parts.map(..).rev().collect()`), so that the
handlers' `Vec::pop` calls yield them in received order.  On a line with
no tokens the source calls `parts.next().unwrap()` which panics; the
panic is modelled as `none`. -/
def SMTPCommand.parse (line : String) : Option SMTPCommand :=
  match splitAsciiWs line with
  | [] => none
  | v :: rest => some ⟨upperAscii v, rest.reverse⟩

/-- `impl Display for SMTPCommand` (src/proto.rs lines 108-116): the verb,
then each stored argument preceded by a space, then CRLF. -/
def SMTPCommand.emit (c : SMTPCommand) : String :=
  c.verb ++ String.join (c.args.map (fun a => " " ++ a)) ++ "\r\n"

/-- Rust `Vec::pop` (used by the server handlers on `cmd.args`): removes
and returns the last element. -/
def vecPop (l : List String) : Option (String × List String) :=
  match l.getLast? with
  | none => none
  | some a => some (a, l.dropLast)

/-! ## Reply codec (src/proto.rs, SMTPResponse) -/

deriving instance DecidableEq for Except

structure SMTPResponse where
  code : Nat
  lines : List String
deriving DecidableEq, Repr

/-- `SMTPResponse::new` (src/proto.rs lines 13-18). -/
def SMTPResponse.mkNew (code : Nat) (msg : String) : SMTPResponse :=
  ⟨code, [msg]⟩

/-- `SMTPResponse::add_line` (src/proto.rs lines 24-26). -/
def SMTPResponse.addLine (r : SMTPResponse) (l : String) : SMTPResponse :=
  ⟨r.code, r.lines ++ [l]⟩

/-- Worker for `decimalRepr`; the fuel argument only serves structural
termination and is always sufficient (`n / 10 < n`). -/
def decimalReprGo : Nat → Nat → List Char
  | 0, _ => []
  | fuel + 1, n =>
    if n < 10 then [Nat.digitChar n]
    else decimalReprGo fuel (n / 10) ++ [Nat.digitChar (n % 10)]

/-- Decimal rendering of a natural number, as Rust's `Display` for the
`u16` status code. -/
def decimalRepr (n : Nat) : List Char :=
  decimalReprGo (n + 1) n

/-- One emitted reply line: `code`, separator, text, CRLF
(src/proto.rs lines 79-82). -/
def respLineChars (code : Nat) (sep : Char) (l : String) : List Char :=
  decimalRepr code ++ sep :: l.data ++ ['\r', '\n']

/-- `impl Display for SMTPResponse` (src/proto.rs lines 76-84): every line
but the last carries separator `-`, the last carries a space.  When the
line list is empty, `split_last` fails and the implementation returns a
formatting error (modelled as `none`). -/
def SMTPResponse.emitChars (r : SMTPResponse) : Option (List Char) :=
  match r.lines.getLast? with
  | none => none
  | some last =>
    some ((r.lines.dropLast.map (fun l => respLineChars r.code '-' l)).flatten
      ++ respLineChars r.code ' ' last)

/-- Splitting a stream into the units successive `read_line` calls
return: each unit ends with `nl` (LF), except possibly a trailing unit at
end of input.  `cur` accumulates the current unit in reverse. -/
def splitAfter {α : Type} [DecidableEq α] (nl : α) :
    List α → List α → List (List α)
  | cur, [] => if cur.isEmpty then [] else [cur.reverse]
  | cur, a :: rest =>
    if a = nl then (a :: cur).reverse :: splitAfter nl [] rest
    else splitAfter nl (a :: cur) rest

/-- Strips trailing `"\r\n"` repetitions from a *reversed* character
list: Rust `str::trim_end_matches("\r\n")` seen from the right end. -/
def trimCRLFrev : List Char → List Char
  | [] => []
  | [c] => [c]
  | c1 :: c2 :: rest =>
    if c1 = '\n' ∧ c2 = '\r' then trimCRLFrev rest else c1 :: c2 :: rest

/-- Rust `str::trim_end_matches("\r\n")`. -/
def trimEndCRLF (l : List Char) : String :=
  String.mk (trimCRLFrev l.reverse).reverse

/-- Decimal digit-string evaluation: `acc` is the value of the digits
already consumed; any non-digit character fails. -/
def digitsValGo (acc : Nat) : List Char → Option Nat
  | [] => some acc
  | c :: cs =>
    if '0' ≤ c ∧ c ≤ '9' then
      digitsValGo (acc * 10 + (c.toNat - '0'.toNat)) cs
    else none

/-- Value of a non-empty all-digit string. -/
def digitsVal : List Char → Option Nat
  | [] => none
  | l => digitsValGo 0 l

/-- Rust `str::parse::<u16>`: optional leading `+`, one or more decimal
digits, value below 2^16. -/
def parseU16 (cs : List Char) : Option Nat :=
  let digits := if cs.head? = some '+' then cs.tail else cs
  match digitsVal digits with
  | none => none
  | some n => if n < 65536 then some n else none

/-- `SMTPResponse::parse_line` (src/proto.rs lines 28-50) applied to one
line as returned by `read_line`: three decimal digits, a separator octet
(space: final line, hyphen: more lines), text, with one trailing CRLF
trimmed.  The slice accesses `chars[..3]` and `chars[3]` panic in Rust on
shorter lines; the panics are modelled as errors. -/
def parseOneRespLine (raw : List Char) : Except String (Nat × Bool × String) :=
  if raw.length < 3 then .error "index out of range"
  else
    match parseU16 (raw.take 3) with
    | none => .error "invalid digit found in string"
    | some code =>
      match raw.drop 3 with
      | [] => .error "index out of range"
      | sep :: text =>
        if sep = ' ' then .ok (code, false, trimEndCRLF text)
        else if sep = '-' then .ok (code, true, trimEndCRLF text)
        else .error "Invalid character"

/-- The multi-line loop of `SMTPResponse::parse` (src/proto.rs lines
59-70): read lines while the separator announces more, requiring every
subsequent line to repeat the first line's code.  The stream is the list
of `read_line` units; an exhausted stream is the `read == 0` EOF error. -/
def parseRespRest (code : Nat) : List (List Char) →
    Except String (List String × List (List Char))
  | [] => .error "EOF"
  | raw :: rest =>
    match parseOneRespLine raw with
    | .error e => .error e
    | .ok (c2, another, line) =>
      if c2 ≠ code then .error "Invalid response"
      else if another then
        match parseRespRest code rest with
        | .error e => .error e
        | .ok (ls, r2) => .ok (line :: ls, r2)
      else .ok ([line], rest)

/-- `SMTPResponse::parse` (src/proto.rs lines 52-73) over a stream of
`read_line` units: parse the first line, then, if it announced more
lines, the loop. -/
def SMTPResponse.parseLines : List (List Char) →
    Except String (SMTPResponse × List (List Char))
  | [] => .error "EOF"
  | raw :: rest =>
    match parseOneRespLine raw with
    | .error e => .error e
    | .ok (code, another, line) =>
      if another then
        match parseRespRest code rest with
        | .error e => .error e
        | .ok (ls, r2) => .ok (⟨code, line :: ls⟩, r2)
      else .ok (⟨code, [line]⟩, rest)

/-- `SMTPResponse::parse` on raw wire characters: the buffered stream is
split into `read_line` units first. -/
def SMTPResponse.parseChars (w : List Char) :
    Except String (SMTPResponse × List (List Char)) :=
  SMTPResponse.parseLines (splitAfter '\n' [] w)

/-! ## DATA dot-stuffing (src/client.rs send_data, src/server.rs
handle_data), at byte granularity -/

def CRb : Nat := 13

def LFb : Nat := 10

def DOTb : Nat := 46

/-- `send_data` (src/client.rs lines 357-367): every byte is written and
the window `last_3` of the last three *input* bytes (initialised
`[0, CR, LF]`) is shifted; right after an input byte completing a
CRLF-dot sequence an extra dot is written.  `y z` are the last two input
bytes, so the initial state is `(CR, LF)`. -/
def sendDataGo (y z : Nat) : List Nat → List Nat
  | [] => []
  | b :: rest =>
    if y = CRb ∧ z = LFb ∧ b = DOTb then b :: DOTb :: sendDataGo z b rest
    else b :: sendDataGo z b rest

/-- The client's dot-stuffing transformation of a body. -/
def clientDotStuff (body : List Nat) : List Nat :=
  sendDataGo CRb LFb body

/-- The bytes `handle_send_mail` puts on the wire for the DATA payload
after the body: `"\r\n.\r\n"` (src/client.rs line 342). -/
def dataTerminator : List Nat := [CRb, LFb, DOTb, CRb, LFb]

/-- One step of the Rust UTF-8 validator (`core::str` validation, the
check inside `read_line`) from a character boundary: an ASCII byte
completes a character, a leading byte opens one and yields the list of
allowed ranges for its continuation bytes, anything else is invalid. -/
def utf8Step (b : Nat) : Option (List (Nat × Nat)) :=
  if b < 128 then some []
  else if 194 ≤ b ∧ b ≤ 223 then some [(128, 191)]
  else if b = 224 then some [(160, 191), (128, 191)]
  else if 225 ≤ b ∧ b ≤ 236 then some [(128, 191), (128, 191)]
  else if b = 237 then some [(128, 159), (128, 191)]
  else if 238 ≤ b ∧ b ≤ 239 then some [(128, 191), (128, 191)]
  else if b = 240 then some [(144, 191), (128, 191), (128, 191)]
  else if 241 ≤ b ∧ b ≤ 243 then some [(128, 191), (128, 191), (128, 191)]
  else if b = 244 then some [(128, 143), (128, 191), (128, 191)]
  else none

/-- Runs the UTF-8 validator over a byte list from intermediate state
`st` (the ranges still expected for an open character); returns the
state after the list, `none` on a malformed byte. -/
def utf8Run : List (Nat × Nat) → List Nat → Option (List (Nat × Nat))
  | st, [] => some st
  | [], b :: rest =>
    match utf8Step b with
    | none => none
    | some st => utf8Run st rest
  | (lo, hi) :: st, b :: rest =>
    if lo ≤ b ∧ b ≤ hi then utf8Run st rest else none

/-- Rust `str::from_utf8` succeeds: the validator runs through and ends
at a character boundary. -/
def isUtf8 (l : List Nat) : Bool :=
  match utf8Run [] l with
  | some [] => true
  | _ => false

/-- Every pending continuation range starts at 128 or above (true of
every state `utf8Step` produces, so ASCII bytes only occur at character
boundaries in valid input). -/
def pendingHigh (s : List (Nat × Nat)) : Bool :=
  s.all (fun p => decide (128 ≤ p.1))

/-- The reception loop of `handle_data` (src/server.rs lines 150-174)
over the list of `read_line` units: a unit that is not valid UTF-8 makes
`read_line` fail with `InvalidData`, upon which the source replies 553
and continues - the unit's bytes have been consumed and are dropped.  A
valid unit is checked against the lone-dot terminator, has one leading
dot stripped if it starts with a dot, and is appended.  `none` models
end of input before the terminator (`read == 0`: the handler returns and
the collected data is dropped). -/
def dataCollect : List (List Nat) → Option (List Nat)
  | [] => none
  | l :: rest =>
    if isUtf8 l then
      if l = [DOTb, CRb, LFb] then some []
      else
        match dataCollect rest with
        | none => none
        | some d => some ((if l.head? = some DOTb then l.tail else l) ++ d)
    else dataCollect rest

/-- The server's reassembly of a DATA payload from wire bytes. -/
def serverDotUnstuff (wire : List Nat) : Option (List Nat) :=
  dataCollect (splitAfter LFb [] wire)

/-- Scans a body for a dot that directly follows a bare LF (an LF not
preceded by CR); `y z` track the last two bytes seen, starting from the
virtual CRLF that precedes the body on the wire.  Such a dot starts a
`read_line` unit without having been dot-stuffed by `sendDataGo`, which
is the one situation in which reassembly diverges from the body. -/
def noBareLfDotGo (y z : Nat) : List Nat → Bool
  | [] => true
  | b :: rest =>
    if z = LFb ∧ b = DOTb ∧ ¬ (y = CRb) then false
    else noBareLfDotGo z b rest

/-- A body with no dot directly after a bare LF. -/
def noBareLfDot (body : List Nat) : Bool :=
  noBareLfDotGo CRb LFb body

/-! ## IP addresses (the Rust `std::net` parser and formatter used by
`send_mail`): four octets for IPv4, eight 16-bit groups for IPv6 -/

inductive IpAddr where
  | v4 (a b c d : Nat)
  | v6 (gs : List Nat)
deriving DecidableEq, Repr

/-- Splitting on a separator (the separator is dropped, empty segments
are kept), as Rust `str::split`. -/
def splitSepGo {α : Type} [DecidableEq α] (sep : α) :
    List α → List α → List (List α)
  | cur, [] => [cur.reverse]
  | cur, a :: rest =>
    if a = sep then cur.reverse :: splitSepGo sep [] rest
    else splitSepGo sep (a :: cur) rest

def splitSep {α : Type} [DecidableEq α] (sep : α) (l : List α) :
    List (List α) :=
  splitSepGo sep [] l

/-- One IPv4 octet: one to three decimal digits, no leading zero, value
at most 255. -/
def parseIpv4Octet (cs : List Char) : Option Nat :=
  if cs.isEmpty || cs.length > 3 then none
  else if cs.head? = some '0' ∧ cs.length > 1 then none
  else
    match digitsVal cs with
    | none => none
    | some n => if n ≤ 255 then some n else none

/-- The Rust IPv4 address parser: four dot-separated octets. -/
def parseIpv4 (cs : List Char) : Option IpAddr :=
  match (splitSep '.' cs).map parseIpv4Octet with
  | [some a, some b, some c, some d] => some (.v4 a b c d)
  | _ => none

def hexDigitVal (c : Char) : Option Nat :=
  if '0' ≤ c ∧ c ≤ '9' then some (c.toNat - '0'.toNat)
  else if 'a' ≤ c ∧ c ≤ 'f' then some (c.toNat - 'a'.toNat + 10)
  else if 'A' ≤ c ∧ c ≤ 'F' then some (c.toNat - 'A'.toNat + 10)
  else none

def hexGroupValGo (acc : Nat) : List Char → Option Nat
  | [] => some acc
  | c :: cs =>
    match hexDigitVal c with
    | none => none
    | some v => hexGroupValGo (acc * 16 + v) cs

/-- One IPv6 group: one to four hex digits, either case. -/
def hexGroupVal (cs : List Char) : Option Nat :=
  if cs.isEmpty || cs.length > 4 then none else hexGroupValGo 0 cs

/-- Splits at the first `::`, when present. -/
def splitDoubleColon : List Char → Option (List Char × List Char)
  | [] => none
  | [_] => none
  | c1 :: c2 :: rest =>
    if c1 = ':' ∧ c2 = ':' then some ([], rest)
    else
      match splitDoubleColon (c2 :: rest) with
      | none => none
      | some (l, r) => some (c1 :: l, r)

/-- Colon-separated IPv6 groups without `::`; when `allowV4` is set (the
tail end of an address) the last part may be an embedded dotted-quad
IPv4, contributing two groups. -/
def parseV6Parts (allowV4 : Bool) : List (List Char) → Option (List Nat)
  | [] => some []
  | [p] =>
    match hexGroupVal p with
    | some g => some [g]
    | none =>
      if allowV4 then
        match parseIpv4 p with
        | some (.v4 a b c d) => some [a * 256 + b, c * 256 + d]
        | _ => none
      else none
  | p :: rest =>
    match hexGroupVal p, parseV6Parts allowV4 rest with
    | some g, some gs => some (g :: gs)
    | _, _ => none

def parseV6Side (allowV4 : Bool) (cs : List Char) : Option (List Nat) :=
  if cs.isEmpty then some [] else parseV6Parts allowV4 (splitSep ':' cs)

/-- The Rust IPv6 address parser: eight groups, an optional single `::`
compression, an optional embedded IPv4 tail. -/
def parseIpv6 (cs : List Char) : Option IpAddr :=
  match splitDoubleColon cs with
  | some (l, r) =>
    match parseV6Side false l, parseV6Side true r with
    | some gl, some gr =>
      if gl.length + gr.length ≤ 7 then
        some (.v6 (gl ++ List.replicate (8 - gl.length - gr.length) 0 ++ gr))
      else none
    | _, _ => none
  | none =>
    match parseV6Side true cs with
    | some gs => if gs.length = 8 then some (.v6 gs) else none
    | none => none

/-- Rust `IpAddr::from_str`: an IPv4 address, else an IPv6 address. -/
def ipFromStr (s : String) : Option IpAddr :=
  match parseIpv4 s.data with
  | some a => some a
  | none => parseIpv6 s.data

/-- Worker for `hexRepr`; fuel-based for structural termination. -/
def hexReprGo : Nat → Nat → List Char
  | 0, _ => []
  | fuel + 1, n =>
    if n < 16 then [Nat.digitChar n]
    else hexReprGo fuel (n / 16) ++ [Nat.digitChar (n % 16)]

/-- Lowercase hexadecimal rendering without leading zeros. -/
def hexRepr (n : Nat) : List Char :=
  hexReprGo (n + 1) n

/-- Longest (first among equals) run of zero groups: worker returns the
best `(start, length)` seen. -/
def lzrGo : List Nat → Nat → Nat → Nat → Nat × Nat → Nat × Nat
  | [], _, curStart, curLen, best =>
    if best.2 < curLen then (curStart, curLen) else best
  | g :: rest, i, curStart, curLen, best =>
    if g = 0 then
      lzrGo rest (i + 1) (if curLen = 0 then i else curStart) (curLen + 1) best
    else
      lzrGo rest (i + 1) 0 0 (if best.2 < curLen then (curStart, curLen) else best)

def longestZeroRun (gs : List Nat) : Nat × Nat :=
  lzrGo gs 0 0 0 (0, 0)

def ipv4Chars (a b c d : Nat) : List Char :=
  decimalRepr a ++ '.' :: decimalRepr b ++ '.' :: decimalRepr c ++ '.' :: decimalRepr d

def joinColon : List (List Char) → List Char
  | [] => []
  | [g] => g
  | g :: rest => g ++ ':' :: joinColon rest

/-- The Rust `Display` for `Ipv6Addr`: the unspecified and loopback
addresses, IPv4-compatible and IPv4-mapped addresses are special-cased;
otherwise the longest zero run of length at least two is compressed to
`::` and groups print as lowercase hex. -/
def ipv6Chars (gs : List Nat) : List Char :=
  if gs = [0, 0, 0, 0, 0, 0, 0, 0] then "::".data
  else if gs = [0, 0, 0, 0, 0, 0, 0, 1] then "::1".data
  else
    match gs with
    | [0, 0, 0, 0, 0, 0, g, h] =>
      "::".data ++ ipv4Chars (g / 256) (g % 256) (h / 256) (h % 256)
    | [0, 0, 0, 0, 0, 65535, g, h] =>
      "::ffff:".data ++ ipv4Chars (g / 256) (g % 256) (h / 256) (h % 256)
    | _ =>
      let p := longestZeroRun gs
      if 1 < p.2 then
        joinColon ((gs.take p.1).map hexRepr) ++ ':' :: ':' ::
          joinColon ((gs.drop (p.1 + p.2)).map hexRepr)
      else joinColon (gs.map hexRepr)

/-- Rust `Display` for `IpAddr` (`a.to_string()` in `send_mail`). -/
def ipToString : IpAddr → List Char
  | .v4 a b c d => ipv4Chars a b c d
  | .v6 gs => ipv6Chars gs

/-! ## MX resolution, ordering and the per-recipient MX set
(src/client.rs lines 57-111) -/

/-- One MX record as the injected resolver returns it: the DNS
preference, the exchange host name, and the outcome of `lookup_ip` on
that exchange (`none` models a failed lookup, `some` the returned
addresses in DNS return order). -/
structure MXRecord where
  preference : Nat
  exchange : String
  ips : Option (List IpAddr)
deriving DecidableEq, Repr

structure MXAddress where
  address : IpAddr
  domain : String
deriving DecidableEq, Repr

def trimDotsRev : List Char → List Char
  | [] => []
  | c :: rest => if c = '.' then trimDotsRev rest else c :: rest

/-- Rust `str::trim_end_matches('.')` on the exchange host name
(src/client.rs line 77). -/
def trimDots (s : String) : String :=
  String.mk (trimDotsRev s.data.reverse).reverse

/-- Stable insertion used by `stableSortByKey`: an element goes in front
of the first element whose key is not smaller. -/
def stableInsert {β : Type} (key : β → Nat) (x : β) : List β → List β
  | [] => [x]
  | y :: ys => if key x ≤ key y then x :: y :: ys else y :: stableInsert key x ys

/-- Rust `slice::sort_by_key` is a stable sort; a stable sort's output is
determined by sortedness plus stability, so insertion sort embeds it. -/
def stableSortByKey {β : Type} (key : β → Nat) : List β → List β
  | [] => []
  | x :: xs => stableInsert key x (stableSortByKey key xs)

/-- Sort key of the final family reordering (src/client.rs lines 90-93):
IPv6 targets get key 0, IPv4 targets key 1. -/
def famKey (a : MXAddress) : Nat :=
  match a.address with
  | .v6 _ => 0
  | .v4 _ _ _ _ => 1

/-- The preference-ordered expansion of the MX records (src/client.rs
lines 69-86): sort records by preference (stable, so DNS return order of
the records is kept among equal preferences), drop records whose address
lookup failed, and expand each record into one target per returned
address, in DNS return order, carrying the dot-trimmed exchange name. -/
def mxExpand (records : List MXRecord) : List MXAddress :=
  ((stableSortByKey (fun r => r.preference) records).filterMap
    (fun r => r.ips.map (fun ips =>
      ips.map (fun ip => MXAddress.mk ip (trimDots r.exchange))))).flatten

/-- The full MX set for a DNS-resolved domain: the expansion, then the
stable family sort (IPv6 before IPv4; src/client.rs lines 90-93). -/
def mxSetOfRecords (records : List MXRecord) : List MXAddress :=
  stableSortByKey famKey (mxExpand records)

/-- Splits at the last occurrence of `sep`, as Rust
`str::rsplitn(2, sep)` consumed by two `next()` calls: returns
`(before, after)`; `none` when `sep` does not occur. -/
def rsplitAtLast (sep : Char) : List Char → Option (List Char × List Char)
  | [] => none
  | c :: rest =>
    match rsplitAtLast sep rest with
    | some (b, a) => some (c :: b, a)
    | none => if c = sep then some ([], rest) else none

/-- The pre-family-sort MX set of one domain (src/client.rs lines
64-89): a domain that parses as an IP literal yields the single target
`(ip, ip.to_string())` with no resolver query; otherwise the resolver's
records are expanded, with `InvalidAddress` on lookup failure or on an
empty expansion. -/
def mxBaseSet (resolver : String → Option (List MXRecord))
    (domain : String) : Except SendingError (List MXAddress) :=
  match ipFromStr domain with
  | some a => .ok [⟨a, String.mk (ipToString a)⟩]
  | none =>
    match resolver domain with
    | none => .error .invalidAddress
    | some records =>
      if (mxExpand records).isEmpty then .error .invalidAddress
      else .ok (mxExpand records)

/-- The per-recipient address parsing and MX-set computation of
`send_mail` (src/client.rs lines 57-100): split at the last `at` sign
(`InvalidAddress` when absent), compute the domain's MX set, then apply
the stable family sort (src/client.rs lines 90-93, which runs on both
the IP-literal and the resolver branch).  Returns
`(local_part, domain, mx_addresses)`. -/
def mxAddressesFor (resolver : String → Option (List MXRecord))
    (rcpt : String) :
    Except SendingError (String × String × List MXAddress) :=
  match rsplitAtLast '@' rcpt.data with
  | none => .error .invalidAddress
  | some (localCs, domainCs) =>
    match mxBaseSet resolver (String.mk domainCs) with
    | .error e => .error e
    | .ok addrs =>
      .ok (String.mk localCs, String.mk domainCs, stableSortByKey famKey addrs)

/-! ## RFC 5322 envelope validation (src/proto.rs
parse_and_validate_parsed_mail, lines 163-301).  The external `mailparse`
library is a collaborator here: each embedded header carries, as part of
the input, what `addrparse_header`, `msgidparse` and `dateparse` would
return for it, so the validator's own logic - the header-count and
address-count rules of the source - is embedded exactly. -/

inductive MailAddr where
  | single (addr : String)
  | group (addrs : List String)
deriving DecidableEq, Repr

structure MailHeaderE where
  name : String
  raw : String
  addrs : Option (List MailAddr)
  msgids : Option (List String)
  dateVal : Option Int
deriving DecidableEq, Repr

structure ParsedMailE where
  headers : List MailHeaderE
deriving DecidableEq, Repr

structure ParsedIMFE where
  date : Int
  fromAddrs : List MailAddr
  sender : Option String
  replyTo : Option (List MailAddr)
  toAddrs : Option (List MailAddr)
  cc : Option (List MailAddr)
  bcc : Option (List MailAddr)
  subject : Option String
  messageId : Option String
  inReplyTo : Option (List String)
  references : Option (List String)
deriving DecidableEq, Repr

/-- `MailHeaderMap::get_all_headers`: headers whose name matches
case-insensitively, in order. -/
def getAllHeaders (m : ParsedMailE) (name : String) : List MailHeaderE :=
  m.headers.filter
    (fun h => h.name.data.map Char.toLower == name.data.map Char.toLower)

/-- `MailAddrList::count_addrs`: singles count one, groups count their
member lists. -/
def countAddrs (l : List MailAddr) : Nat :=
  (l.map (fun a => match a with | .single _ => 1 | .group g => g.length)).sum

/-- `MailAddrList::extract_single_info`: defined exactly when the list is
one single (non-group) address. -/
def extractSingleInfo (l : List MailAddr) : Option String :=
  match l with
  | [.single a] => some a
  | _ => none

/-- The Date stage (src/proto.rs lines 169-178): exactly one Date header
whose value parses. -/
def stageDate (m : ParsedMailE) : Except String Int :=
  match getAllHeaders m "Date" with
  | [d] =>
    match d.dateVal with
    | some t => .ok t
    | none => .error "invalid date"
  | _ => .error "Invalid number of Date headers"

/-- The From stage (src/proto.rs lines 180-191): exactly one From header
parsing to at least one address. -/
def stageFrom (m : ParsedMailE) : Except String (List MailAddr) :=
  match getAllHeaders m "From" with
  | [f] =>
    match f.addrs with
    | some fl =>
      if countAddrs fl < 1 then .error "Invalid number of From addresses"
      else .ok fl
    | none => .error "address parse error"
  | _ => .error "Invalid number of From headers"

/-- The Sender stage (src/proto.rs lines 193-206): with exactly one
Sender header, it must parse to a single address - the From address
count is not consulted; with zero or several Sender headers, the message
is rejected exactly when From does not have exactly one address. -/
def stageSender (m : ParsedMailE) (fromL : List MailAddr) :
    Except String (Option String) :=
  match getAllHeaders m "Sender" with
  | [f] =>
    match f.addrs with
    | some sl =>
      match extractSingleInfo sl with
      | some s => .ok (some s)
      | none => .error "Only a single address is allowed as a Sender"
    | none => .error "address parse error"
  | _ =>
    if countAddrs fromL ≠ 1 then .error "Invalid number of Sender headers"
    else .ok none

/-- The Reply-To / To / Cc / Bcc stages (src/proto.rs lines 208-247): at
most one header; `checkCount` distinguishes Reply-To, which additionally
requires at least one address. -/
def stageAddrOpt (m : ParsedMailE) (name : String) (checkCount : Bool) :
    Except String (Option (List MailAddr)) :=
  match getAllHeaders m name with
  | [] => .ok none
  | [f] =>
    match f.addrs with
    | some fl =>
      if checkCount ∧ countAddrs fl < 1 then
        .error "Invalid number of addresses"
      else .ok (some fl)
    | none => .error "address parse error"
  | _ => .error "Invalid number of headers"

/-- The Subject stage (src/proto.rs lines 249-253). -/
def stageSubject (m : ParsedMailE) : Except String (Option String) :=
  match getAllHeaders m "Subject" with
  | [] => .ok none
  | [f] => .ok (some f.raw)
  | _ => .error "Invalid number of Subject headers"

/-- The Message-ID stage (src/proto.rs lines 255-267): at most one
header, carrying exactly one id. -/
def stageMessageId (m : ParsedMailE) : Except String (Option String) :=
  match getAllHeaders m "Message-ID" with
  | [] => .ok none
  | [f] =>
    match f.msgids with
    | some ids =>
      if ids.length ≠ 1 then .error "Invalid number of Message-IDs"
      else .ok ids.getLast?
    | none => .error "message id parse error"
  | _ => .error "Invalid number of Message-ID headers"

/-- The In-Reply-To / References stages (src/proto.rs lines 269-285). -/
def stageMsgIdList (m : ParsedMailE) (name : String) :
    Except String (Option (List String)) :=
  match getAllHeaders m name with
  | [] => .ok none
  | [f] =>
    match f.msgids with
    | some ids => .ok (some ids)
    | none => .error "message id parse error"
  | _ => .error "Invalid number of headers"

/-- `parse_and_validate_parsed_mail` (src/proto.rs lines 163-301), over
the embedded parsed-header input: the stages run in source order and the
first failure is returned. -/
def parseAndValidateParsedMail (m : ParsedMailE) : Except String ParsedIMFE :=
  match stageDate m with
  | .error e => .error e
  | .ok date =>
  match stageFrom m with
  | .error e => .error e
  | .ok fromL =>
  match stageSender m fromL with
  | .error e => .error e
  | .ok sender =>
  match stageAddrOpt m "Reply-To" true with
  | .error e => .error e
  | .ok replyTo =>
  match stageAddrOpt m "To" false with
  | .error e => .error e
  | .ok toL =>
  match stageAddrOpt m "Cc" false with
  | .error e => .error e
  | .ok cc =>
  match stageAddrOpt m "Bcc" false with
  | .error e => .error e
  | .ok bcc =>
  match stageSubject m with
  | .error e => .error e
  | .ok subject =>
  match stageMessageId m with
  | .error e => .error e
  | .ok messageId =>
  match stageMsgIdList m "In-Reply-To" with
  | .error e => .error e
  | .ok inReplyTo =>
  match stageMsgIdList m "References" with
  | .error e => .error e
  | .ok references =>
    .ok ⟨date, fromL, sender, replyTo, toL, cc, bcc, subject, messageId,
      inReplyTo, references⟩

/-- A message with one Date header, a From header carrying exactly one
address, and exactly one Sender header carrying a single address. -/
def c4CexMail : ParsedMailE :=
  ⟨[⟨"Date", "Tue, 1 Jan 2019 00:00:00 +0000", none, none, some 1546300800⟩,
    ⟨"From", "a@example.org", some [.single "a@example.org"], none, none⟩,
    ⟨"Sender", "b@example.org", some [.single "b@example.org"], none, none⟩]⟩

/-- A message whose From header carries two addresses, with exactly one
Sender header. -/
def c4WitMail : ParsedMailE :=
  ⟨[⟨"Date", "Tue, 1 Jan 2019 00:00:00 +0000", none, none, some 1546300800⟩,
    ⟨"From", "a@x, b@x", some [.single "a@x", .single "b@x"], none, none⟩,
    ⟨"Sender", "c@x", some [.single "c@x"], none, none⟩]⟩

/-! ## Server session state machine (src/server.rs).

The handlers call three external collaborators, passed here as
parameters: `ap` is the `mailparse::addrparse` plus
`extract_single_info` composite (returning the parsed address, `none` on
either failure - both produce the same 501 reply), and `peD`/`peB` are
`process_email` (database and validation side effects; `none` = success,
`some r` = the error reply; `process_email` takes `&self` and never
mutates the session state) at string and at byte granularity for DATA
and BDAT respectively. -/

/-- The protocol-relevant fields of `SessionState` (src/server.rs lines
11-20); `config`, `peer_addr` and `reverse_dns` feed only reply text and
logging and are summarised by the display string `peerName`. -/
structure SrvState where
  clientIdentity : Option String
  protocol : Option String
  reversePath : Option String
  forwardPaths : List String
  binaryData : List Nat
  peerName : String
deriving DecidableEq, Repr

/-- `SessionState::new` (src/server.rs lines 23-34). -/
def initialSrvState (peerName : String) : SrvState :=
  ⟨none, none, none, [], [], peerName⟩

/-- The session-state invariant of C10: no forward paths without a
reverse path. -/
def srvInv (s : SrvState) : Prop :=
  s.reversePath = none → s.forwardPaths = []

/-- ASCII lowercasing (Rust `str::to_lowercase` /
`eq_ignore_ascii_case`, on the ASCII data at issue). -/
def lowerStr (s : String) : String :=
  String.mk (s.data.map Char.toLower)

/-- Rust `str::starts_with`, at character granularity (the prefixes at
issue are ASCII, where Rust byte slicing and characters agree). -/
def strStartsWith (s pre : String) : Bool :=
  pre.data.isPrefixOf s.data

/-- Rust `str::ends_with`, at character granularity. -/
def strEndsWith (s suf : String) : Bool :=
  suf.data.isSuffixOf s.data

/-- The Rust slice `&arg[n..]`, at character granularity. -/
def strDrop (s : String) (n : Nat) : String :=
  String.mk (s.data.drop n)

/-- Modelled from the spec: the external `mailparse::addrparse` plus
`extract_single_info` composite called by the server handlers (the
spec's "Parses the angle-addressed address"), restricted to the shapes
at issue: an angle-bracketed address yields the bracketed text, a bare
address is returned as-is, an empty input fails. -/
def addrparseSpec (s : String) : Option String :=
  if strStartsWith s "<" ∧ strEndsWith s ">" then
    if s.data.length ≤ 2 then none
    else some (String.mk (s.data.drop 1).dropLast)
  else if s = "" then none
  else some s

/-- `e.addr.rsplit(":").next().unwrap()` (src/server.rs line 127): the
segment after the last colon, the whole string when there is none. -/
def lastColonSegment (s : String) : String :=
  match (splitSep ':' s.data).getLast? with
  | some seg => String.mk seg
  | none => s

/-- `SessionState::handle_mail` (src/server.rs lines 65-97). -/
def handleMail (ap : String → Option String) (st : SrvState)
    (cmd : SMTPCommand) : SrvState × SMTPResponse :=
  if st.clientIdentity.isNone || st.reversePath.isSome then
    (st, .mkNew 503 "Go read the RFCs")
  else
    match vecPop cmd.args with
    | none => (st, .mkNew 501 "Go read the RFCs")
    | some (arg, _) =>
      if strStartsWith arg "FROM:" then
        if strDrop arg 5 = "<>" then
          ({st with reversePath := some ""},
            .mkNew 250 "OwO? Not giving a reverse path?")
        else
          match ap (strDrop arg 5) with
          | some e =>
            ({st with reversePath := some e, forwardPaths := []},
              .mkNew 250 "OwO what's this? A valid reverse path?")
          | none => (st, .mkNew 501 "Go read the RFCs")
      else (st, .mkNew 501 "Go read the RFCs")

/-- `SessionState::handle_rcpt` (src/server.rs lines 99-135), with the
postmaster gate of lines 110-113 compared on the raw argument after
`TO:` exactly as in the source. -/
def handleRcpt (ap : String → Option String) (st : SrvState)
    (cmd : SMTPCommand) : SrvState × SMTPResponse :=
  if st.clientIdentity.isNone || st.reversePath.isNone then
    (st, .mkNew 503 "Go read the RFCs")
  else
    match vecPop cmd.args with
    | none => (st, .mkNew 501 "Go read the RFCs")
    | some (arg, _) =>
      if strStartsWith arg "TO:" then
        if lowerStr (strDrop arg 3) = "postmaster" ∨
            strStartsWith (lowerStr (strDrop arg 3)) "postmaster@" = true then
          (st, .mkNew 551 "Go email noc@as207960.net instead")
        else
          match ap (strDrop arg 3) with
          | some e =>
            ({st with forwardPaths := st.forwardPaths ++ [lastColonSegment e]},
              .mkNew 250 "UwU emails!")
          | none => (st, .mkNew 501 "Go read the RFCs")
      else (st, .mkNew 501 "Go read the RFCs")

/-- The DATA reception loop of `handle_data` (src/server.rs lines
150-174) at line granularity (the same loop `dataCollect` embeds at byte
granularity for C5): `none` models end of input before the terminator,
after which the handler returns with the session state unchanged. -/
def collectDataLines : List String → Option String
  | [] => none
  | l :: rest =>
    if l = ".\r\n" then some ""
    else
      match collectDataLines rest with
      | none => none
      | some d => some ((if strStartsWith l "." then strDrop l 1 else l) ++ d)

/-- `SessionState::handle_data` (src/server.rs lines 137-188); `body` is
the lines the subsequent `read_line` calls would return.  On a
`process_email` error the handler returns that reply *without* clearing
the transaction state; only on success are the paths and buffer
cleared. -/
def handleData (peD : List String → Option String → String → Option SMTPResponse)
    (st : SrvState) (cmd : SMTPCommand) (body : List String) :
    SrvState × List SMTPResponse :=
  if st.clientIdentity.isNone || st.reversePath.isNone ||
      st.forwardPaths.isEmpty then
    (st, [.mkNew 503 "Go read the RFCs"])
  else if cmd.args.length ≠ 0 then
    (st, [.mkNew 501 "Go read the RFCs"])
  else
    match collectDataLines body with
    | none => (st, [.mkNew 354 "Feed me your email"])
    | some data =>
      match peD st.forwardPaths st.reversePath data with
      | some errResp => (st, [.mkNew 354 "Feed me your email", errResp])
      | none =>
        ({st with reversePath := none, forwardPaths := [], binaryData := []},
          [.mkNew 354 "Feed me your email",
            .mkNew 250 "Nom nom nom that was delicious"])

/-- Rust `str::parse::<usize>`: optional `+`, then decimal digits (the
usize overflow bound is immaterial here). -/
def parseNatRust (s : String) : Option Nat :=
  digitsVal (if s.data.head? = some '+' then s.data.tail else s.data)

/-- The tail of `handle_bdat` after argument parsing (src/server.rs
lines 215-233): `read_exact` the chunk (`none` = the stream ended early,
an I/O error that aborts the session), extend the binary buffer, and on
the last chunk run `process_email` - replying with its error or with 250
- and clear the transaction state either way. -/
def bdatFinish (peB : List String → Option String → List Nat → Option SMTPResponse)
    (st : SrvState) (chunkSize : Nat) (bytes : List Nat) (isLast : Bool) :
    Option (SrvState × List SMTPResponse) :=
  if bytes.length < chunkSize then none
  else
    if isLast then
      match peB st.forwardPaths st.reversePath
          (st.binaryData ++ bytes.take chunkSize) with
      | some errResp =>
        some ({st with reversePath := none
                       forwardPaths := []
                       binaryData := []}, [errResp])
      | none =>
        some ({st with reversePath := none
                       forwardPaths := []
                       binaryData := []},
          [.mkNew 250 "Nom nom nom that was delicious"])
    else
      some ({st with binaryData := st.binaryData ++ bytes.take chunkSize},
        [.mkNew 250 "Nom nom nom more please!"])

/-- `SessionState::handle_bdat` (src/server.rs lines 190-234): guards,
then pop the chunk size (the first received argument, by the reversed
storage), then the optional LAST token (`eq_ignore_ascii_case`); a
missing second argument makes the zero-size chunk final. -/
def handleBdat (peB : List String → Option String → List Nat → Option SMTPResponse)
    (st : SrvState) (cmd : SMTPCommand) (bytes : List Nat) :
    Option (SrvState × List SMTPResponse) :=
  if st.clientIdentity.isNone || st.reversePath.isNone ||
      st.forwardPaths.isEmpty then
    some (st, [.mkNew 503 "Go read the RFCs"])
  else if cmd.args.length < 1 || cmd.args.length > 2 then
    some (st, [.mkNew 501 "Go read the RFCs"])
  else
    match vecPop cmd.args with
    | none => none
    | some (szArg, restArgs) =>
      match parseNatRust szArg with
      | none => some (st, [.mkNew 501 "Go read the RFCs"])
      | some chunkSize =>
        match vecPop restArgs with
        | some (a, _) =>
          if lowerStr a = "last" then bdatFinish peB st chunkSize bytes true
          else some (st, [.mkNew 501 "Go read the RFCs"])
        | none => bdatFinish peB st chunkSize bytes (chunkSize == 0)

/-- The input one iteration of the command loop consumes: the command
line `read_line` returned, plus the further lines (for DATA) and raw
bytes (for BDAT) the stream would yield. -/
structure SrvEvent where
  line : String
  body : List String
  bytes : List Nat

/-- One iteration of the `process_socket` command loop (src/server.rs
lines 371-440): parse the line - on a token-free line the source panics
in `SMTPCommand::parse`, modelled as `none` - then dispatch on the verb.
Returns the state, the replies written, and whether the loop continues
(`false` for QUIT); `none` models a panic or a fatal I/O error ending
the session with no reply. -/
def sessionStep (ap : String → Option String)
    (peD : List String → Option String → String → Option SMTPResponse)
    (peB : List String → Option String → List Nat → Option SMTPResponse)
    (st : SrvState) (ev : SrvEvent) :
    Option (SrvState × List SMTPResponse × Bool) :=
  match SMTPCommand.parse ev.line with
  | none => none
  | some cmd =>
    match cmd.verb with
    | "HELO" =>
      if cmd.args.length ≠ 1 then
        some (st, [.mkNew 501 "Go read the RFCs"], true)
      else
        match vecPop cmd.args with
        | some (name, _) =>
          some ({st with clientIdentity := some name
                         protocol := some "SMTP"
                         reversePath := none
                         forwardPaths := []},
            [.mkNew 250
              ("relay-mx.as207960.net Good day to you " ++ st.peerName)], true)
        | none => none
    | "EHLO" =>
      if cmd.args.length ≠ 1 then
        some (st, [.mkNew 501 "Go read the RFCs"], true)
      else
        match vecPop cmd.args with
        | some (name, _) =>
          some ({st with clientIdentity := some name
                         protocol := some "ESMTP"
                         reversePath := none
                         forwardPaths := []},
            [((((SMTPResponse.mkNew 250
                ("relay-mx.as207960.net Good day to you " ++ st.peerName)).addLine
                "8BITMIME").addLine "SMTPUTF8").addLine "CHUNKING").addLine
                "SIZE 0"], true)
        | none => none
    | "MAIL" =>
      match handleMail ap st cmd with
      | (st', r) => some (st', [r], true)
    | "RCPT" =>
      match handleRcpt ap st cmd with
      | (st', r) => some (st', [r], true)
    | "DATA" =>
      match handleData peD st cmd ev.body with
      | (st', rs) => some (st', rs, true)
    | "BDAT" =>
      match handleBdat peB st cmd ev.bytes with
      | none => none
      | some (st', rs) => some (st', rs, true)
    | "RSET" =>
      some ({st with reversePath := none
                     forwardPaths := []
                     binaryData := []},
        [.mkNew 250 "And so we begin again"], true)
    | "NOOP" => some (st, [.mkNew 250 "Well that was a waste"], true)
    | "HELP" => some (st, [.mkNew 502 "No"], true)
    | "EXPN" => some (st, [.mkNew 502 "No"], true)
    | "QUIT" => some (st, [.mkNew 221 "Toodles!"], false)
    | _ => some (st, [.mkNew 500 "Go read the RFCs"], true)

/-- The states a server session can be in: the initial state, closed
under session steps (for any behaviour of the external collaborators). -/
inductive SrvReachable (ap : String → Option String)
    (peD : List String → Option String → String → Option SMTPResponse)
    (peB : List String → Option String → List Nat → Option SMTPResponse) :
    SrvState → Prop where
  | init (peerName : String) :
      SrvReachable ap peD peB (initialSrvState peerName)
  | step {s s' : SrvState} {ev : SrvEvent} {rs : List SMTPResponse} {c : Bool} :
      SrvReachable ap peD peB s →
      sessionStep ap peD peB s ev = some (s', rs, c) →
      SrvReachable ap peD peB s'

end WhoisEmail

namespace WhoisEmail

/-! ## Theorems for C1 and C3 -/

/-- C1: in `send_mail`, if an attempt on one MX target fails with a
connection error and an attempt on a later MX target succeeds, the claim
says every recipient of the group gets `Ok`.  Evaluating the embedded
loop on that failing input shows the stale `last_error` is *not* cleared
by the success, so the group's recipient is reported as a connection
error although delivery succeeded. -/
theorem c1_stale_connection_error_after_success :
    sendMailResults 1
      [⟨[0], [.error (.connectionError "connection refused"), .ok ()]⟩] =
      [.error (.connectionError "connection refused")] ∧
    mxAttemptLoop none
      [.error (.connectionError "connection refused"), .ok ()] =
      some (.connectionError "connection refused") := by
  constructor <;> rfl

theorem c3_parse_reverses_args_counterexample :
    SMTPCommand.parse "BDAT 100 LAST\r\n" =
      some ⟨"BDAT", ["LAST", "100"]⟩ ∧
    (SMTPCommand.parse "BDAT 100 LAST\r\n").map SMTPCommand.emit =
      some "BDAT LAST 100\r\n" ∧
    (["LAST", "100"] : List String) ≠ ["100", "LAST"] := by
  refine ⟨rfl, rfl, ?_⟩
  decide

/-- C3 (amended): for every command line with at least one token,
`SMTPCommand::parse` returns the first token uppercased as the verb and
the remaining tokens in *reversed* received order; consequently emitting
the parsed command reproduces the verb uppercased followed by the
arguments space-joined in reversed order. -/
theorem c3_parse_emit_amended (line : String) (t : String) (ts : List String)
    (h : splitAsciiWs line = t :: ts) :
    SMTPCommand.parse line = some ⟨upperAscii t, ts.reverse⟩ ∧
    (SMTPCommand.parse line).map SMTPCommand.emit =
      some (upperAscii t ++
        String.join (ts.reverse.map (fun a => " " ++ a)) ++ "\r\n") := by
  unfold SMTPCommand.parse
  rw [h]
  exact ⟨rfl, rfl⟩

/-! ## Theorems for C6: reply emit/parse round trip -/

set_option maxRecDepth 4000 in
theorem decimalRepr_code_facts : ∀ n, n < 1000 → 100 ≤ n →
    parseU16 (decimalRepr n) = some n ∧ (decimalRepr n).length = 3 ∧
    ('\n' ∈ decimalRepr n → False) := by decide

theorem splitAfter_chunk (body : List Char) (B cur : List Char)
    (h : '\n' ∉ body) :
    splitAfter '\n' cur (body ++ '\n' :: B) =
      (cur.reverse ++ body ++ ['\n']) :: splitAfter '\n' [] B := by
  induction body generalizing cur with
  | nil => simp [splitAfter]
  | cons c bs ih =>
    have hc : ¬ (c = '\n') := fun hh => h (by simp [hh])
    have hb : '\n' ∉ bs := fun hh => h (by simp [hh])
    simp only [List.cons_append, splitAfter, if_neg hc, List.append_eq]
    rw [ih _ hb]
    simp

theorem trimCRLFrev_no_lf (m : List Char) (h : '\n' ∉ m) :
    trimCRLFrev m = m := by
  match m with
  | [] => rfl
  | [c] => rfl
  | c1 :: c2 :: r =>
    have : ¬ (c1 = '\n' ∧ c2 = '\r') := by
      rintro ⟨rfl, -⟩
      exact h (by simp)
    simp [trimCRLFrev, this]

theorem string_mk_data (s : String) : String.mk s.data = s := by
  cases s
  rfl

theorem trimEndCRLF_clean (l : String)
    (h : ∀ c ∈ l.data, c ≠ '\r' ∧ c ≠ '\n') :
    trimEndCRLF (l.data ++ ['\r', '\n']) = l := by
  unfold trimEndCRLF
  have h1 : (l.data ++ ['\r', '\n']).reverse = '\n' :: '\r' :: l.data.reverse := by
    simp
  have h2 : trimCRLFrev ('\n' :: '\r' :: l.data.reverse) =
      trimCRLFrev l.data.reverse := by
    simp [trimCRLFrev]
  have h3 : '\n' ∉ l.data.reverse := by
    intro hh
    exact (h '\n' (List.mem_reverse.mp hh)).2 rfl
  rw [h1, h2, trimCRLFrev_no_lf _ h3, List.reverse_reverse, string_mk_data]

theorem parseOneRespLine_emit (code : Nat) (sep : Char) (l : String)
    (hc1 : 100 ≤ code) (hc2 : code < 1000)
    (hsep : sep = ' ' ∨ sep = '-')
    (hl : ∀ c ∈ l.data, c ≠ '\r' ∧ c ≠ '\n') :
    parseOneRespLine (respLineChars code sep l) = .ok (code, sep == '-', l) := by
  obtain ⟨hp, hlen, -⟩ := decimalRepr_code_facts code hc2 hc1
  have hx : respLineChars code sep l =
      decimalRepr code ++ sep :: (l.data ++ ['\r', '\n']) := by
    simp [respLineChars]
  rw [hx]
  unfold parseOneRespLine
  have hnlt : ¬ (decimalRepr code ++ sep :: (l.data ++ ['\r', '\n'])).length < 3 := by
    simp [hlen]
  have htake : (decimalRepr code ++ sep :: (l.data ++ ['\r', '\n'])).take 3 =
      decimalRepr code := List.take_left' hlen
  have hdrop : (decimalRepr code ++ sep :: (l.data ++ ['\r', '\n'])).drop 3 =
      sep :: (l.data ++ ['\r', '\n']) := List.drop_left' hlen
  rw [if_neg hnlt, htake, hp, hdrop]
  have htrim := trimEndCRLF_clean l hl
  rcases hsep with rfl | rfl
  · simp [htrim]
  · simp [htrim]

theorem parseRespRest_emit (code : Nat) (hc1 : 100 ≤ code) (hc2 : code < 1000) :
    ∀ (lines : List String) (last : String) (rest : List (List Char)),
    (∀ l ∈ lines ++ [last], ∀ c ∈ l.data, c ≠ '\r' ∧ c ≠ '\n') →
    parseRespRest code
      (lines.map (respLineChars code '-') ++
        (respLineChars code ' ' last :: rest)) =
      .ok (lines ++ [last], rest) := by
  intro lines
  induction lines with
  | nil =>
    intro last rest h
    have hlast : ∀ c ∈ last.data, c ≠ '\r' ∧ c ≠ '\n' := h last (by simp)
    simp only [List.map_nil, List.nil_append]
    simp only [parseRespRest]
    rw [parseOneRespLine_emit code ' ' last hc1 hc2 (Or.inl rfl) hlast]
    rw [show (' ' == '-') = false from rfl]
    simp
  | cons l ls ih =>
    intro last rest h
    have hl : ∀ c ∈ l.data, c ≠ '\r' ∧ c ≠ '\n' := h l (by simp)
    have hrest : ∀ x ∈ ls ++ [last], ∀ c ∈ x.data, c ≠ '\r' ∧ c ≠ '\n' := by
      intro x hx
      exact h x (by simp at hx ⊢; tauto)
    simp only [List.map_cons, List.cons_append]
    simp only [parseRespRest]
    rw [parseOneRespLine_emit code '-' l hc1 hc2 (Or.inr rfl) hl]
    rw [show ('-' == '-') = true from rfl]
    simp only [ne_eq, not_true_eq_false, if_false, ite_true, if_true]
    rw [ih last rest hrest]

theorem no_lf_respLine_body (code : Nat) (sep : Char) (l : String)
    (hc1 : 100 ≤ code) (hc2 : code < 1000) (hsep : ¬ (sep = '\n'))
    (hl : ∀ c ∈ l.data, c ≠ '\r' ∧ c ≠ '\n') :
    '\n' ∉ decimalRepr code ++ sep :: (l.data ++ ['\r']) := by
  obtain ⟨-, -, hnl⟩ := decimalRepr_code_facts code hc2 hc1
  intro hmem
  simp only [List.mem_append, List.mem_cons, List.mem_singleton] at hmem
  rcases hmem with h1 | h2 | h4 | h5
  · exact hnl h1
  · exact hsep h2.symm
  · exact (hl '\n' h4).2 rfl
  · exact absurd h5 (by decide)

theorem splitAfter_respLines (code : Nat) (hc1 : 100 ≤ code) (hc2 : code < 1000) :
    ∀ (ps : List (Char × String)),
    (∀ p ∈ ps, (p.1 = ' ' ∨ p.1 = '-') ∧ ∀ c ∈ p.2.data, c ≠ '\r' ∧ c ≠ '\n') →
    splitAfter '\n' []
      ((ps.map (fun p => respLineChars code p.1 p.2)).flatten) =
      ps.map (fun p => respLineChars code p.1 p.2) := by
  intro ps
  induction ps with
  | nil => intro _; rfl
  | cons p ps ih =>
    intro h
    obtain ⟨hsep, hcl⟩ := h p (by simp)
    have hsep' : ¬ (p.1 = '\n') := by
      rcases hsep with h1 | h1 <;> · rw [h1]; decide
    have hbody := no_lf_respLine_body code p.1 p.2 hc1 hc2 hsep' hcl
    have hshape : respLineChars code p.1 p.2 ++
        (ps.map (fun p => respLineChars code p.1 p.2)).flatten =
        (decimalRepr code ++ p.1 :: (p.2.data ++ ['\r'])) ++
          '\n' :: (ps.map (fun p => respLineChars code p.1 p.2)).flatten := by
      simp [respLineChars]
    simp only [List.map_cons, List.flatten_cons]
    rw [hshape, splitAfter_chunk _ _ _ hbody]
    rw [ih (fun q hq => h q (by simp [hq]))]
    simp [respLineChars]

/-- C6: for every SMTP reply with a three-digit code and a non-empty list
of CR/LF-free lines, parsing the bytes produced by the emitter returns the
same reply (same code, same lines, same order) and consumes the whole
stream. -/
theorem c6_reply_round_trip (r : SMTPResponse)
    (hc1 : 100 ≤ r.code) (hc2 : r.code ≤ 999) (hne : r.lines ≠ [])
    (hcl : ∀ l ∈ r.lines, ∀ c ∈ l.data, c ≠ '\r' ∧ c ≠ '\n') :
    r.emitChars.map SMTPResponse.parseChars = some (.ok (r, [])) := by
  have hc2' : r.code < 1000 := by omega
  obtain ⟨L, b, hLb⟩ := (List.eq_nil_or_concat r.lines).resolve_left hne
  rw [List.concat_eq_append] at hLb
  have hemit : r.emitChars = some
      ((L.map (respLineChars r.code '-')).flatten ++
        respLineChars r.code ' ' b) := by
    unfold SMTPResponse.emitChars
    rw [hLb, List.getLast?_concat, List.dropLast_concat]
  rw [hemit]
  have hps : ∀ p ∈ (L.map (fun l => ('-', l)) ++ [(' ', b)]),
      (p.1 = ' ' ∨ p.1 = '-') ∧ ∀ c ∈ p.2.data, c ≠ '\r' ∧ c ≠ '\n' := by
    intro p hp
    simp only [List.mem_append, List.mem_map, List.mem_singleton] at hp
    rcases hp with ⟨x, hx, rfl⟩ | rfl
    · exact ⟨Or.inr rfl, hcl x (by rw [hLb]; simp [hx])⟩
    · exact ⟨Or.inl rfl, hcl b (by rw [hLb]; simp)⟩
  have hsplit := splitAfter_respLines r.code hc1 hc2'
    (L.map (fun l => ('-', l)) ++ [(' ', b)]) hps
  have hunits : ((L.map (fun l => ('-', l)) ++ [(' ', b)]).map
      (fun p => respLineChars r.code p.1 p.2)) =
      L.map (respLineChars r.code '-') ++ [respLineChars r.code ' ' b] := by
    simp only [List.map_append, List.map_map]
    rfl
  have hflat : ((L.map (fun l => ('-', l)) ++ [(' ', b)]).map
      (fun p => respLineChars r.code p.1 p.2)).flatten =
      (L.map (respLineChars r.code '-')).flatten ++
        respLineChars r.code ' ' b := by
    rw [hunits, List.flatten_append]
    simp
  rw [hflat, hunits] at hsplit
  show some (SMTPResponse.parseLines (splitAfter '\n' []
    ((L.map (respLineChars r.code '-')).flatten ++
      respLineChars r.code ' ' b))) = some (.ok (r, []))
  rw [hsplit]
  cases L with
  | nil =>
    have hb : ∀ c ∈ b.data, c ≠ '\r' ∧ c ≠ '\n' := hcl b (by rw [hLb]; simp)
    simp only [List.map_nil, List.nil_append]
    simp only [SMTPResponse.parseLines]
    rw [parseOneRespLine_emit r.code ' ' b hc1 hc2' (Or.inl rfl) hb]
    rw [show (' ' == '-') = false from rfl]
    have req : r = ⟨r.code, [] ++ [b]⟩ := by rw [← hLb]
    conv_rhs => rw [req]
    simp
  | cons l ls =>
    have hl : ∀ c ∈ l.data, c ≠ '\r' ∧ c ≠ '\n' :=
      hcl l (by rw [hLb]; simp)
    have hrest : ∀ x ∈ ls ++ [b], ∀ c ∈ x.data, c ≠ '\r' ∧ c ≠ '\n' := by
      intro x hx
      refine hcl x ?_
      rw [hLb]
      simp at hx ⊢
      tauto
    simp only [List.map_cons, List.cons_append]
    simp only [SMTPResponse.parseLines]
    rw [parseOneRespLine_emit r.code '-' l hc1 hc2' (Or.inr rfl) hl]
    have hR := parseRespRest_emit r.code hc1 hc2' ls b [] hrest
    have req : r = ⟨r.code, l :: ls ++ [b]⟩ := by rw [← hLb]
    conv_rhs => rw [req]
    simp [hR]

/-- Witness for C6: the round trip evaluated on a concrete multi-line
reply. -/
theorem c6_reply_round_trip_witness :
    (SMTPResponse.mk 250 ["hello", "8BITMIME"]).emitChars.map
      SMTPResponse.parseChars =
      some (.ok (⟨250, ["hello", "8BITMIME"]⟩, [])) :=
  c6_reply_round_trip ⟨250, ["hello", "8BITMIME"]⟩ (by decide) (by decide)
    (by decide) (by decide)

theorem c3_parse_emit_amended_witness :
    splitAsciiWs "BDAT 100 LAST\r\n" = ["BDAT", "100", "LAST"] ∧
    SMTPCommand.parse "BDAT 100 LAST\r\n" =
      some ⟨"BDAT", ["LAST", "100"]⟩ := by
  have h : splitAsciiWs "BDAT 100 LAST\r\n" = ["BDAT", "100", "LAST"] := rfl
  exact ⟨h, (c3_parse_emit_amended "BDAT 100 LAST\r\n" "BDAT" ["100", "LAST"] h).1⟩

/-! ## Theorems for C5: dot-stuffing round trip -/

theorem splitAfter_cons_ne {α : Type} [DecidableEq α] (nl a : α)
    (cur rest : List α) (h : ¬ (a = nl)) :
    splitAfter nl cur (a :: rest) = splitAfter nl (a :: cur) rest := by
  simp [splitAfter, h]

theorem splitAfter_cons_eq {α : Type} [DecidableEq α] (nl : α)
    (cur rest : List α) :
    splitAfter nl cur (nl :: rest) = (nl :: cur).reverse :: splitAfter nl [] rest := by
  simp [splitAfter]

theorem stuff_line_ne_term (cur orig t : List Nat)
    (hline : (cur.reverse = orig ∧ orig.head? ≠ some DOTb) ∨
      (cur.reverse = DOTb :: orig ∧ orig.head? = some DOTb))
    (ht : t = [CRb, LFb] ∨ t = [LFb]) :
    ¬ (cur.reverse ++ t = [DOTb, CRb, LFb]) := by
  intro h
  rcases hline with ⟨he, hh⟩ | ⟨he, hh⟩
  · rw [he] at h
    rcases orig with _ | ⟨o, os⟩
    · rcases ht with rfl | rfl <;> simp_all [CRb, LFb, DOTb]
    · simp only [List.cons_append] at h
      injection h with h1 h2
      exact hh (by simp [h1])
  · rw [he] at h
    simp only [List.cons_append] at h
    injection h with h1 h2
    rcases orig with _ | ⟨o, os⟩
    · exact absurd hh (by simp)
    · simp only [List.cons_append] at h2
      injection h2 with h3 h4
      have ho : o = DOTb := by simpa using hh
      rw [ho] at h3
      exact absurd h3.symm (by decide)

theorem stuff_line_strip (cur orig t : List Nat)
    (hline : (cur.reverse = orig ∧ orig.head? ≠ some DOTb) ∨
      (cur.reverse = DOTb :: orig ∧ orig.head? = some DOTb))
    (ht : ¬ (t.head? = some DOTb)) :
    (if (cur.reverse ++ t).head? = some DOTb then (cur.reverse ++ t).tail
      else cur.reverse ++ t) = orig ++ t := by
  rcases hline with ⟨he, hh⟩ | ⟨he, hh⟩
  · rw [he]
    rcases orig with _ | ⟨o, os⟩
    · simp [ht]
    · have ho : ¬ (o = DOTb) := fun hc => hh (by simp [hc])
      simp [ho]
  · rw [he]
    simp

theorem dataCollect_cons (l : List Nat) (rest : List (List Nat)) :
    dataCollect (l :: rest) =
      if isUtf8 l then
        if l = [DOTb, CRb, LFb] then some []
        else
          match dataCollect rest with
          | none => none
          | some d => some ((if l.head? = some DOTb then l.tail else l) ++ d)
      else dataCollect rest := by
  simp only [dataCollect]

theorem utf8Step_ascii (b : Nat) (hb : b < 128) : utf8Step b = some [] := by
  unfold utf8Step
  rw [if_pos hb]

theorem utf8Run_ascii (b : Nat) (rest : List Nat) (hb : b < 128) :
    utf8Run [] (b :: rest) = utf8Run [] rest := by
  simp only [utf8Run]
  rw [utf8Step_ascii b hb]

theorem utf8Step_high (b : Nat) (s : List (Nat × Nat))
    (h : utf8Step b = some s) : pendingHigh s = true := by
  unfold utf8Step at h
  split at h
  · rw [Option.some.injEq] at h; rw [← h]; rfl
  split at h
  · rw [Option.some.injEq] at h; rw [← h]; rfl
  split at h
  · rw [Option.some.injEq] at h; rw [← h]; rfl
  split at h
  · rw [Option.some.injEq] at h; rw [← h]; rfl
  split at h
  · rw [Option.some.injEq] at h; rw [← h]; rfl
  split at h
  · rw [Option.some.injEq] at h; rw [← h]; rfl
  split at h
  · rw [Option.some.injEq] at h; rw [← h]; rfl
  split at h
  · rw [Option.some.injEq] at h; rw [← h]; rfl
  split at h
  · rw [Option.some.injEq] at h; rw [← h]; rfl
  · exact absurd h (by simp)

theorem pending_nil_of_low (s : List (Nat × Nat)) (b : Nat) (rest : List Nat)
    (res : List (Nat × Nat)) (hhigh : pendingHigh s = true) (hb : b < 128)
    (h : utf8Run s (b :: rest) = some res) : s = [] := by
  cases s with
  | nil => rfl
  | cons p s' =>
    obtain ⟨lo, hi⟩ := p
    simp only [utf8Run] at h
    simp only [pendingHigh, List.all_cons, Bool.and_eq_true, decide_eq_true_eq] at hhigh
    rw [if_neg (fun hc => absurd (le_trans hhigh.1 hc.1) (by omega))] at h
    exact absurd h (by simp)

theorem utf8Run_append (x : List Nat) : ∀ (st : List (Nat × Nat)) (y : List Nat),
    utf8Run st (x ++ y) =
      match utf8Run st x with
      | none => none
      | some s => utf8Run s y := by
  induction x with
  | nil =>
    intro st y
    simp [utf8Run]
  | cons b xs ih =>
    intro st y
    cases st with
    | nil =>
      simp only [List.cons_append, utf8Run]
      cases hsb : utf8Step b with
      | none => rfl
      | some s1 => exact ih s1 y
    | cons p st' =>
      obtain ⟨lo, hi⟩ := p
      simp only [List.cons_append, utf8Run]
      by_cases hin : lo ≤ b ∧ b ≤ hi
      · simp only [if_pos hin]
        exact ih st' y
      · simp only [if_neg hin]

theorem isUtf8_run (l : List Nat) (h : isUtf8 l = true) :
    utf8Run [] l = some [] := by
  unfold isUtf8 at h
  split at h
  · rename_i heq
    exact heq
  · exact absurd h (by simp)

theorem dataCollect_sendData (body : List Nat) :
    ∀ (y z : Nat) (cur orig : List Nat) (s : List (Nat × Nat)),
    ((cur = [] ∧ z = LFb) ∨ (¬ (cur = []) ∧ ¬ (z = LFb))) →
    ((cur.reverse = orig ∧ orig.head? ≠ some DOTb) ∨
      (cur.reverse = DOTb :: orig ∧ orig.head? = some DOTb)) →
    pendingHigh s = true →
    utf8Run [] cur.reverse = some s →
    utf8Run s body = some [] →
    noBareLfDotGo y z body = true →
    dataCollect (splitAfter LFb cur (sendDataGo y z body ++ dataTerminator)) =
      some (orig ++ body ++ [CRb, LFb]) := by
  induction body with
  | nil =>
    intro y z cur orig s hstate hline hhigh hcur hrun hsafe
    simp only [utf8Run, Option.some.injEq] at hrun
    subst hrun
    have hwire : sendDataGo y z [] ++ dataTerminator =
        CRb :: LFb :: DOTb :: CRb :: LFb :: [] := by
      simp [sendDataGo, dataTerminator]
    have hsplit : splitAfter LFb cur (CRb :: LFb :: DOTb :: CRb :: LFb :: []) =
        [cur.reverse ++ [CRb, LFb], [DOTb, CRb, LFb]] := by
      rw [splitAfter_cons_ne LFb CRb _ _ (by decide), splitAfter_cons_eq,
        splitAfter_cons_ne LFb DOTb _ _ (by decide),
        splitAfter_cons_ne LFb CRb _ _ (by decide), splitAfter_cons_eq]
      simp [splitAfter]
    have hvalid1 : isUtf8 (cur.reverse ++ [CRb, LFb]) = true := by
      unfold isUtf8
      rw [utf8Run_append cur.reverse [] [CRb, LFb], hcur]
      decide
    have htail : dataCollect [[DOTb, CRb, LFb]] = some [] := by decide
    rw [hwire, hsplit, dataCollect_cons]
    rw [if_pos hvalid1]
    rw [if_neg (stuff_line_ne_term cur orig [CRb, LFb] hline (Or.inl rfl))]
    rw [htail]
    rw [stuff_line_strip cur orig [CRb, LFb] hline (by decide)]
    simp
  | cons b rest ih =>
    intro y z cur orig s hstate hline hhigh hcur hrun hsafe
    simp only [noBareLfDotGo] at hsafe
    by_cases hstuff : y = CRb ∧ z = LFb ∧ b = DOTb
    · obtain ⟨hy, hz, hbD⟩ := hstuff
      subst hy hz hbD
      have hsafe' : noBareLfDotGo LFb DOTb rest = true := by
        rwa [if_neg (fun hcc => hcc.2.2 rfl)] at hsafe
      have hcur0 : cur = [] := by
        rcases hstate with ⟨h1, -⟩ | ⟨-, h2⟩
        · exact h1
        · exact absurd rfl h2
      have horig : orig = [] := by
        rcases hline with ⟨he, -⟩ | ⟨he, -⟩
        · rw [hcur0] at he; exact he.symm
        · rw [hcur0] at he; exact absurd he.symm (by simp)
      subst hcur0 horig
      have hs : s = [] := by
        simp only [List.reverse_nil, utf8Run, Option.some.injEq] at hcur
        exact hcur.symm
      subst hs
      rw [utf8Run_ascii DOTb rest (by decide)] at hrun
      have hstep : sendDataGo CRb LFb (DOTb :: rest) =
          DOTb :: DOTb :: sendDataGo LFb DOTb rest := by
        simp [sendDataGo]
      rw [hstep]
      rw [List.cons_append, List.cons_append]
      rw [splitAfter_cons_ne LFb DOTb _ _ (by decide)]
      rw [splitAfter_cons_ne LFb DOTb _ _ (by decide)]
      rw [ih LFb DOTb [DOTb, DOTb] [DOTb] []
        (Or.inr ⟨by simp, by decide⟩)
        (Or.inr ⟨by simp, by simp⟩) rfl (by decide) hrun hsafe']
      simp
    · have hstep : sendDataGo y z (b :: rest) = b :: sendDataGo z b rest := by
        simp only [sendDataGo]
        rw [if_neg hstuff]
      rw [hstep, List.cons_append]
      by_cases hbl : b = LFb
      · subst hbl
        have hsafe' : noBareLfDotGo z LFb rest = true := by
          rwa [if_neg (fun hcc => absurd hcc.2.1 (by decide))] at hsafe
        have hs : s = [] := pending_nil_of_low s LFb rest [] hhigh (by decide) hrun
        subst hs
        rw [utf8Run_ascii LFb rest (by decide)] at hrun
        have hvalid : isUtf8 (cur.reverse ++ [LFb]) = true := by
          unfold isUtf8
          rw [utf8Run_append cur.reverse [] [LFb], hcur]
          decide
        rw [splitAfter_cons_eq]
        rw [dataCollect_cons]
        simp only [List.reverse_cons]
        rw [if_pos hvalid]
        rw [if_neg (stuff_line_ne_term cur orig [LFb] hline (Or.inr rfl))]
        rw [ih z LFb [] [] [] (Or.inl ⟨rfl, rfl⟩) (Or.inl ⟨rfl, by simp⟩)
          rfl rfl hrun hsafe']
        rw [stuff_line_strip cur orig [LFb] hline (by decide)]
        simp
      · rcases hstate with ⟨hcur0, hz⟩ | ⟨hcur0, hz⟩
        · subst hcur0
          subst hz
          have hbD : ¬ (b = DOTb) := by
            intro hbD
            have hy : ¬ (y = CRb) := fun hy => hstuff ⟨hy, rfl, hbD⟩
            rw [if_pos ⟨rfl, hbD, hy⟩] at hsafe
            exact absurd hsafe (by decide)
          have hsafe' : noBareLfDotGo LFb b rest = true := by
            rwa [if_neg (fun hcc => hbD hcc.2.1)] at hsafe
          have horig : orig = [] := by
            rcases hline with ⟨he, -⟩ | ⟨he, -⟩
            · exact he.symm
            · exact absurd he.symm (by simp)
          subst horig
          have hs : s = [] := by
            simp only [List.reverse_nil, utf8Run, Option.some.injEq] at hcur
            exact hcur.symm
          subst hs
          simp only [utf8Run] at hrun
          cases hsb : utf8Step b with
          | none =>
            rw [hsb] at hrun
            exact absurd hrun (by simp)
          | some st1 =>
            rw [hsb] at hrun
            rw [splitAfter_cons_ne LFb b _ _ hbl]
            rw [ih LFb b [b] [b] st1 (Or.inr ⟨by simp, hbl⟩)
              (Or.inl ⟨by simp, by simp [hbD]⟩)
              (utf8Step_high b st1 hsb)
              (by simp only [List.reverse_cons, List.reverse_nil,
                    List.nil_append, utf8Run, hsb])
              hrun hsafe']
            simp
        · have hsafe' : noBareLfDotGo z b rest = true := by
            rwa [if_neg (fun hcc => hz hcc.1)] at hsafe
          rw [splitAfter_cons_ne LFb b _ _ hbl]
          have hline' : ((b :: cur).reverse = orig ++ [b] ∧
              (orig ++ [b]).head? ≠ some DOTb) ∨
              ((b :: cur).reverse = DOTb :: (orig ++ [b]) ∧
                (orig ++ [b]).head? = some DOTb) := by
            rcases hline with ⟨he, hh⟩ | ⟨he, hh⟩
            · left
              refine ⟨by rw [List.reverse_cons, he], ?_⟩
              rcases orig with _ | ⟨o, os⟩
              · exact absurd (by simpa using he) hcur0
              · simpa using hh
            · right
              refine ⟨by rw [List.reverse_cons, he]; simp, ?_⟩
              rcases orig with _ | ⟨o, os⟩
              · exact absurd hh (by simp)
              · simpa using hh
          cases s with
          | nil =>
            simp only [utf8Run] at hrun
            cases hsb : utf8Step b with
            | none =>
              rw [hsb] at hrun
              exact absurd hrun (by simp)
            | some st1 =>
              rw [hsb] at hrun
              rw [ih z b (b :: cur) (orig ++ [b]) st1
                (Or.inr ⟨by simp, hbl⟩) hline'
                (utf8Step_high b st1 hsb)
                (by rw [List.reverse_cons,
                      utf8Run_append cur.reverse [] [b], hcur]
                    simp only [utf8Run, hsb])
                hrun hsafe']
              simp
          | cons p s' =>
            obtain ⟨lo, hi⟩ := p
            simp only [utf8Run] at hrun
            by_cases hin : lo ≤ b ∧ b ≤ hi
            · rw [if_pos hin] at hrun
              have hhigh' : pendingHigh s' = true := by
                simp only [pendingHigh, List.all_cons, Bool.and_eq_true] at hhigh
                exact hhigh.2
              rw [ih z b (b :: cur) (orig ++ [b]) s'
                (Or.inr ⟨by simp, hbl⟩) hline' hhigh'
                (by rw [List.reverse_cons,
                      utf8Run_append cur.reverse [] [b], hcur]
                    simp only [utf8Run, if_pos hin])
                hrun hsafe']
              simp
            · rw [if_neg hin] at hrun
              exact absurd hrun (by simp)

/-- C5 (counterexample): the dot-stuffing round trip does not return the
body exactly.  Body `"a\r\n"` reassembles to `"a\r\n\r\n"` - the CRLF
the client writes before the terminating dot is a line of its own and is
kept.  Body `"a\n.\r\nb"` reassembles to `"a\n"` - the dot after the
bare LF was never stuffed, so its line is taken as the terminator.
Body `[0xFF, CR, LF]` reassembles to `"\r\n"` - the first line is not
valid UTF-8, so `read_line` fails with `InvalidData`, the server replies
553 and drops the line (src/server.rs lines 152-161). -/
theorem c5_round_trip_counterexample :
    serverDotUnstuff (clientDotStuff [97, 13, 10] ++ dataTerminator) =
      some [97, 13, 10, 13, 10] ∧
    some ([97, 13, 10, 13, 10] : List Nat) ≠ some [97, 13, 10] ∧
    serverDotUnstuff (clientDotStuff [97, 10, 46, 13, 10, 98] ++ dataTerminator) =
      some [97, 10] ∧
    serverDotUnstuff (clientDotStuff [255, 13, 10] ++ dataTerminator) =
      some [13, 10] :=
  ⟨by decide, by decide, by decide, by decide⟩

/-- C5 (amended): for every body that is valid UTF-8 - so the 553
line-drop path of `handle_data` (src/server.rs lines 152-161) never
fires - and in which every dot directly following an LF also has a CR
before that LF, the round trip yields `body ++ CRLF`, the trailing CRLF
being the one the client writes before the terminating dot
(src/client.rs line 342). -/
theorem c5_round_trip_amended (body : List Nat) (hu : isUtf8 body = true)
    (h : noBareLfDot body = true) :
    serverDotUnstuff (clientDotStuff body ++ dataTerminator) =
      some (body ++ [CRb, LFb]) :=
  dataCollect_sendData body CRb LFb [] [] []
    (Or.inl ⟨rfl, rfl⟩) (Or.inl ⟨rfl, by simp⟩) rfl rfl
    (isUtf8_run body hu) h

/-- Witness for the amended C5 round trip on the body `"a\r\n.\r\n"`. -/
theorem c5_round_trip_amended_witness :
    isUtf8 [97, 13, 10, 46, 13, 10] = true ∧
    noBareLfDot [97, 13, 10, 46, 13, 10] = true ∧
    serverDotUnstuff (clientDotStuff [97, 13, 10, 46, 13, 10] ++ dataTerminator) =
      some [97, 13, 10, 46, 13, 10, 13, 10] :=
  ⟨by decide, by decide,
    c5_round_trip_amended [97, 13, 10, 46, 13, 10] (by decide) (by decide)⟩


/-! ## Theorems for C7 and C8: MX set ordering and IP-literal domains -/

theorem famKey_le_one (a : MXAddress) : famKey a = 0 ∨ famKey a = 1 := by
  cases h : a.address <;> simp [famKey, h]

theorem stableInsert_mem {β : Type} (key : β → Nat) (x : β) (l : List β) (z : β)
    (hz : z ∈ stableInsert key x l) : z = x ∨ z ∈ l := by
  induction l with
  | nil => simpa [stableInsert] using hz
  | cons y ys ih =>
    by_cases hc : key x ≤ key y
    · simp only [stableInsert, if_pos hc] at hz
      rcases List.mem_cons.mp hz with rfl | hz'
      · exact Or.inl rfl
      · exact Or.inr hz'
    · simp only [stableInsert, if_neg hc] at hz
      rcases List.mem_cons.mp hz with rfl | hz'
      · exact Or.inr (by simp)
      · rcases ih hz' with rfl | hz2
        · exact Or.inl rfl
        · exact Or.inr (by simp [hz2])

theorem stableInsert_pairwise {β : Type} (key : β → Nat) (x : β) (l : List β)
    (h : l.Pairwise (fun a b => key a ≤ key b)) :
    (stableInsert key x l).Pairwise (fun a b => key a ≤ key b) := by
  induction l with
  | nil => simp [stableInsert]
  | cons y ys ih =>
    rcases List.pairwise_cons.mp h with ⟨hy, hys⟩
    by_cases hc : key x ≤ key y
    · simp only [stableInsert, if_pos hc]
      refine List.pairwise_cons.mpr ⟨?_, h⟩
      intro z hz
      rcases List.mem_cons.mp hz with rfl | hz'
      · exact hc
      · exact le_trans hc (hy z hz')
    · simp only [stableInsert, if_neg hc]
      refine List.pairwise_cons.mpr ⟨?_, ih hys⟩
      intro z hz
      rcases stableInsert_mem key x ys z hz with rfl | hz'
      · omega
      · exact hy z hz'

theorem stableSortByKey_pairwise {β : Type} (key : β → Nat) (l : List β) :
    (stableSortByKey key l).Pairwise (fun a b => key a ≤ key b) := by
  induction l with
  | nil => simp [stableSortByKey]
  | cons x xs ih => exact stableInsert_pairwise key x _ ih

theorem famInsert_shape (x : MXAddress) (zs os : List MXAddress)
    (hz : ∀ a ∈ zs, famKey a = 0) (ho : ∀ a ∈ os, famKey a = 1) :
    stableInsert famKey x (zs ++ os) =
      if famKey x = 0 then x :: (zs ++ os) else zs ++ x :: os := by
  induction zs with
  | nil =>
    cases os with
    | nil => by_cases hx : famKey x = 0 <;> simp [stableInsert, hx]
    | cons o os' =>
      have hko : famKey o = 1 := ho o (by simp)
      by_cases hx : famKey x = 0
      · simp [stableInsert, hx, hko]
      · have hx1 : famKey x = 1 := (famKey_le_one x).resolve_left hx
        simp [stableInsert, hx1, hko, hx]
  | cons z zs' ih =>
    have hkz : famKey z = 0 := hz z (by simp)
    by_cases hx : famKey x = 0
    · simp [stableInsert, hx, hkz]
    · have hx1 : famKey x = 1 := (famKey_le_one x).resolve_left hx
      have hnle : ¬ (famKey x ≤ famKey z) := by omega
      simp only [List.cons_append, List.append_eq, stableInsert, if_neg hnle]
      rw [ih (fun a ha => hz a (by simp [ha]))]
      simp [hx]

theorem stableSortFam_partition (l : List MXAddress) :
    stableSortByKey famKey l =
      l.filter (fun t => famKey t == 0) ++
        l.filter (fun t => !(famKey t == 0)) := by
  induction l with
  | nil => rfl
  | cons x xs ih =>
    show stableInsert famKey x (stableSortByKey famKey xs) = _
    rw [ih]
    rw [famInsert_shape x _ _
      (fun a ha => by simpa using (List.mem_filter.mp ha).2)
      (fun a ha => by
        have h2 := (List.mem_filter.mp ha).2
        rcases famKey_le_one a with h0 | h1
        · simp [h0] at h2
        · exact h1)]
    by_cases hx : famKey x = 0
    · simp [List.filter_cons, hx]
    · simp [List.filter_cons, hx]

theorem pairwise_v6_first (l : List MXAddress) :
    (stableSortByKey famKey l).Pairwise
      (fun a b => ¬ (famKey a = 1 ∧ famKey b = 0)) := by
  exact (stableSortByKey_pairwise famKey l).imp (fun hab => by omega)

/-- C7: in every MX set the resolver/batcher produces, the final stable
family sort puts every IPv6 target before every IPv4 target while the
relative order within each family is exactly the order of the
preference-sorted, DNS-ordered expansion (the family reordering is the
stable secondary key applied after the ascending-preference sort); the
record list feeding the expansion is sorted by ascending preference; and
every per-recipient MX set of `mxAddressesFor` has no IPv4 target before
an IPv6 target. -/
theorem c7_mx_ordering :
    (∀ records : List MXRecord,
      mxSetOfRecords records =
        (mxExpand records).filter (fun t => famKey t == 0) ++
          (mxExpand records).filter (fun t => !(famKey t == 0)) ∧
      (mxSetOfRecords records).Pairwise
        (fun a b => ¬ (famKey a = 1 ∧ famKey b = 0)) ∧
      (stableSortByKey (fun r => r.preference) records).Pairwise
        (fun r s => r.preference ≤ s.preference)) ∧
    (∀ (resolver : String → Option (List MXRecord)) (rcpt lp d : String)
      (tgts : List MXAddress),
      mxAddressesFor resolver rcpt = .ok (lp, d, tgts) →
      tgts.Pairwise (fun a b => ¬ (famKey a = 1 ∧ famKey b = 0))) := by
  constructor
  · intro records
    exact ⟨stableSortFam_partition _, pairwise_v6_first _,
      stableSortByKey_pairwise _ _⟩
  · intro resolver rcpt lp d tgts h
    unfold mxAddressesFor at h
    split at h
    · exact absurd h (by simp)
    · split at h
      · exact absurd h (by simp)
      · rw [Except.ok.injEq, Prod.mk.injEq, Prod.mk.injEq] at h
        rw [← h.2.2]
        exact pairwise_v6_first _

theorem c7_mx_ordering_witness :
    ([⟨.v6 [1, 0, 0, 0, 0, 0, 0, 1], "a.x"⟩, ⟨.v4 1 1 1 1, "a.x"⟩] :
        List MXAddress).Pairwise
      (fun a b => ¬ (famKey a = 1 ∧ famKey b = 0)) := by
  have h := c7_mx_ordering.2
    (fun _ => some [⟨10, "a.x.", some [.v4 1 1 1 1, .v6 [1, 0, 0, 0, 0, 0, 0, 1]]⟩])
    "r@x" "r" "x" [⟨.v6 [1, 0, 0, 0, 0, 0, 0, 1], "a.x"⟩, ⟨.v4 1 1 1 1, "a.x"⟩]
    (by decide)
  exact h

/-- C8 (amended): for a recipient whose domain (after the last `@`)
parses as an IP literal, no resolver query happens (the result is the
same for every resolver) and the MX set is the single target whose
address is the parsed IP and whose host-name component is the *canonical
re-rendering* `ip.to_string()` of that IP, not the literal as
received. -/
theorem c8_ip_literal_amended (resolver : String → Option (List MXRecord))
    (rcpt : String) (localCs domainCs : List Char) (ip : IpAddr)
    (hs : rsplitAtLast '@' rcpt.data = some (localCs, domainCs))
    (hip : ipFromStr (String.mk domainCs) = some ip) :
    mxAddressesFor resolver rcpt =
      .ok (String.mk localCs, String.mk domainCs,
        [⟨ip, String.mk (ipToString ip)⟩]) := by
  unfold mxAddressesFor mxBaseSet
  rw [hs]
  simp only [hip]
  rfl

theorem c8_ip_literal_amended_witness :
    mxAddressesFor (fun _ => none) "rcpt@192.0.2.5" =
      .ok ("rcpt", "192.0.2.5", [⟨.v4 192 0 2 5, "192.0.2.5"⟩]) := by
  have h := c8_ip_literal_amended (fun _ => none) "rcpt@192.0.2.5"
    "rcpt".data "192.0.2.5".data (.v4 192 0 2 5) (by decide) (by decide)
  exact h

theorem c8_ip_literal_counterexample :
    mxAddressesFor (fun _ => none) "rcpt@2001:DB8::1" =
      .ok ("rcpt", "2001:DB8::1",
        [⟨.v6 [8193, 3512, 0, 0, 0, 0, 0, 1], "2001:db8::1"⟩]) ∧
    ("2001:db8::1" : String) ≠ "2001:DB8::1" :=
  ⟨by decide, by decide⟩


/-! ## Theorems for C4: the Sender header rule -/

theorem length_ne_one_of_no_singleton {α : Type} (l : List α)
    (h : ∀ a : α, l = [a] → False) : l.length ≠ 1 := by
  cases l with
  | nil => simp
  | cons x xs =>
    cases xs with
    | nil => exact absurd rfl (fun hh => h x hh)
    | cons y ys => simp

/-- C4 (amended): whenever `parse_and_validate_parsed_mail` succeeds,
either exactly one Sender header is present (and its single address is
recorded) - with no constraint from the From address count - or the
Sender header count differs from one and the From header carries exactly
one address (and no sender is recorded).  In particular a From header
with more than one address forces exactly one Sender header, but a
single Sender header together with a single-address From is accepted,
not rejected as the claim states. -/
theorem c4_sender_rule_amended (m : ParsedMailE) (imf : ParsedIMFE)
    (h : parseAndValidateParsedMail m = .ok imf) :
    ((getAllHeaders m "Sender").length = 1 ∧ imf.sender.isSome = true) ∨
    ((getAllHeaders m "Sender").length ≠ 1 ∧ countAddrs imf.fromAddrs = 1 ∧
      imf.sender = none) := by
  unfold parseAndValidateParsedMail at h
  split at h
  · exact absurd h (by simp)
  rename_i date hdate
  split at h
  · exact absurd h (by simp)
  rename_i fromL hfrom
  split at h
  · exact absurd h (by simp)
  rename_i sender hsender
  split at h
  · exact absurd h (by simp)
  rename_i replyTo hreply
  split at h
  · exact absurd h (by simp)
  rename_i toL hto
  split at h
  · exact absurd h (by simp)
  rename_i cc hcc
  split at h
  · exact absurd h (by simp)
  rename_i bcc hbcc
  split at h
  · exact absurd h (by simp)
  rename_i subject hsubject
  split at h
  · exact absurd h (by simp)
  rename_i messageId hmid
  split at h
  · exact absurd h (by simp)
  rename_i inReplyTo hirt
  split at h
  · exact absurd h (by simp)
  rename_i references href
  rw [Except.ok.injEq] at h
  subst h
  unfold stageSender at hsender
  split at hsender
  · rename_i f heq
    split at hsender
    · rename_i sl haddrs
      split at hsender
      · rename_i s hsingle
        rw [Except.ok.injEq] at hsender
        subst hsender
        left
        exact ⟨by rw [heq]; rfl, rfl⟩
      · exact absurd hsender (by simp)
    · exact absurd hsender (by simp)
  · rename_i hne
    split at hsender
    · exact absurd hsender (by simp)
    · rename_i hcount
      rw [Except.ok.injEq] at hsender
      subst hsender
      right
      refine ⟨length_ne_one_of_no_singleton _ ?_,
        show countAddrs fromL = 1 by omega, rfl⟩
      intro a ha
      exact hne a ha


/-- C4 (counterexample): a message with exactly one From address and
exactly one Sender header is accepted by
`parse_and_validate_parsed_mail` (the one-Sender arm never consults the
From address count), although the claim says a Sender header is
forbidden when From has exactly one address. -/
theorem c4_sender_forbidden_counterexample :
    parseAndValidateParsedMail c4CexMail =
      .ok ⟨1546300800, [.single "a@example.org"], some "b@example.org",
        none, none, none, none, none, none, none, none⟩ ∧
    (getAllHeaders c4CexMail "Sender").length = 1 ∧
    countAddrs [.single "a@example.org"] = 1 :=
  ⟨by decide, by decide, by decide⟩

theorem c4_sender_rule_amended_witness :
    ((getAllHeaders c4WitMail "Sender").length = 1 ∧
      (ParsedIMFE.mk 1546300800 [.single "a@x", .single "b@x"]
        (some "c@x") none none none none none none none
        none).sender.isSome = true) ∨
    ((getAllHeaders c4WitMail "Sender").length ≠ 1 ∧
      countAddrs (ParsedIMFE.mk 1546300800 [.single "a@x", .single "b@x"]
        (some "c@x") none none none none none none none
        none).fromAddrs = 1 ∧
      (ParsedIMFE.mk 1546300800 [.single "a@x", .single "b@x"]
        (some "c@x") none none none none none none none
        none).sender = none) :=
  c4_sender_rule_amended c4WitMail
    ⟨1546300800, [.single "a@x", .single "b@x"], some "c@x",
      none, none, none, none, none, none, none, none⟩ (by decide)


/-! ## Theorems for C2, C9 and C10: the server session -/

theorem handleMail_inv (ap : String → Option String) (st : SrvState)
    (cmd : SMTPCommand) (h : srvInv st) : srvInv (handleMail ap st cmd).1 := by
  unfold handleMail
  split
  · exact h
  split
  · exact h
  split
  · split
    · intro hn
      exact absurd hn (by simp)
    · split
      · intro _
        rfl
      · exact h
  · exact h

theorem handleRcpt_inv (ap : String → Option String) (st : SrvState)
    (cmd : SMTPCommand) (h : srvInv st) : srvInv (handleRcpt ap st cmd).1 := by
  unfold handleRcpt
  split
  · exact h
  rename_i hguard
  split
  · exact h
  split
  · split
    · exact h
    · split
      · intro hn
        simp only at hn
        rw [hn] at hguard
        simp at hguard
      · exact h
  · exact h

theorem handleData_inv
    (peD : List String → Option String → String → Option SMTPResponse)
    (st : SrvState) (cmd : SMTPCommand) (body : List String)
    (h : srvInv st) : srvInv (handleData peD st cmd body).1 := by
  unfold handleData
  split
  · exact h
  split
  · exact h
  split
  · exact h
  split
  · exact h
  · intro _
    rfl

theorem bdatFinish_inv
    (peB : List String → Option String → List Nat → Option SMTPResponse)
    (st : SrvState) (chunkSize : Nat) (bytes : List Nat) (isLast : Bool)
    (st' : SrvState) (rs : List SMTPResponse)
    (hguard : ¬ (st.reversePath = none))
    (hst : bdatFinish peB st chunkSize bytes isLast = some (st', rs)) :
    srvInv st' := by
  unfold bdatFinish at hst
  split at hst
  · exact absurd hst (by simp)
  split at hst
  · split at hst
    · rw [Option.some.injEq, Prod.mk.injEq] at hst
      rw [← hst.1]
      intro _
      rfl
    · rw [Option.some.injEq, Prod.mk.injEq] at hst
      rw [← hst.1]
      intro _
      rfl
  · rw [Option.some.injEq, Prod.mk.injEq] at hst
    rw [← hst.1]
    intro hn
    exact absurd hn hguard

theorem handleBdat_inv
    (peB : List String → Option String → List Nat → Option SMTPResponse)
    (st : SrvState) (cmd : SMTPCommand) (bytes : List Nat)
    (st' : SrvState) (rs : List SMTPResponse) (h : srvInv st)
    (hst : handleBdat peB st cmd bytes = some (st', rs)) : srvInv st' := by
  unfold handleBdat at hst
  split at hst
  · rw [Option.some.injEq, Prod.mk.injEq] at hst
    rw [← hst.1]
    exact h
  rename_i hguard
  have hguard' : ¬ (st.reversePath = none) := by
    intro hn
    simp [hn] at hguard
  split at hst
  · rw [Option.some.injEq, Prod.mk.injEq] at hst
    rw [← hst.1]
    exact h
  split at hst
  · exact absurd hst (by simp)
  split at hst
  · rw [Option.some.injEq, Prod.mk.injEq] at hst
    rw [← hst.1]
    exact h
  split at hst
  · split at hst
    · exact bdatFinish_inv peB st _ bytes true st' rs hguard' hst
    · rw [Option.some.injEq, Prod.mk.injEq] at hst
      rw [← hst.1]
      exact h
  · exact bdatFinish_inv peB st _ bytes _ st' rs hguard' hst

theorem sessionStep_inv (ap : String → Option String)
    (peD : List String → Option String → String → Option SMTPResponse)
    (peB : List String → Option String → List Nat → Option SMTPResponse)
    (st : SrvState) (ev : SrvEvent) (st' : SrvState)
    (rs : List SMTPResponse) (c : Bool) (h : srvInv st)
    (hstep : sessionStep ap peD peB st ev = some (st', rs, c)) :
    srvInv st' := by
  unfold sessionStep at hstep
  split at hstep
  · exact absurd hstep (by simp)
  rename_i cmd hparse
  split at hstep
  -- HELO
  · split at hstep
    · rw [Option.some.injEq, Prod.mk.injEq] at hstep
      rw [← hstep.1]
      exact h
    · split at hstep
      · rw [Option.some.injEq, Prod.mk.injEq] at hstep
        rw [← hstep.1]
        intro _
        rfl
      · exact absurd hstep (by simp)
  -- EHLO
  · split at hstep
    · rw [Option.some.injEq, Prod.mk.injEq] at hstep
      rw [← hstep.1]
      exact h
    · split at hstep
      · rw [Option.some.injEq, Prod.mk.injEq] at hstep
        rw [← hstep.1]
        intro _
        rfl
      · exact absurd hstep (by simp)
  -- MAIL
  · split at hstep
    rename_i st2 r2 heq
    rw [Option.some.injEq, Prod.mk.injEq] at hstep
    rw [← hstep.1]
    have := handleMail_inv ap st cmd h
    rw [heq] at this
    exact this
  -- RCPT
  · split at hstep
    rename_i st2 r2 heq
    rw [Option.some.injEq, Prod.mk.injEq] at hstep
    rw [← hstep.1]
    have := handleRcpt_inv ap st cmd h
    rw [heq] at this
    exact this
  -- DATA
  · split at hstep
    rename_i st2 rs2 heq
    rw [Option.some.injEq, Prod.mk.injEq] at hstep
    rw [← hstep.1]
    have := handleData_inv peD st cmd ev.body h
    rw [heq] at this
    exact this
  -- BDAT
  · split at hstep
    · exact absurd hstep (by simp)
    · rename_i st2 rs2 heq
      rw [Option.some.injEq, Prod.mk.injEq] at hstep
      rw [← hstep.1]
      exact handleBdat_inv peB st cmd ev.bytes st2 rs2 h heq
  -- RSET
  · rw [Option.some.injEq, Prod.mk.injEq] at hstep
    rw [← hstep.1]
    intro _
    rfl
  -- NOOP
  · rw [Option.some.injEq, Prod.mk.injEq] at hstep
    rw [← hstep.1]
    exact h
  -- HELP
  · rw [Option.some.injEq, Prod.mk.injEq] at hstep
    rw [← hstep.1]
    exact h
  -- EXPN
  · rw [Option.some.injEq, Prod.mk.injEq] at hstep
    rw [← hstep.1]
    exact h
  -- QUIT
  · rw [Option.some.injEq, Prod.mk.injEq] at hstep
    rw [← hstep.1]
    exact h
  -- unknown verb
  · rw [Option.some.injEq, Prod.mk.injEq] at hstep
    rw [← hstep.1]
    exact h

/-- C10: in every reachable server session state, an absent reverse path
implies an empty forward-path list: RCPT appends only under a set
reverse path, and every operation clearing the reverse path (RSET,
HELO/EHLO re-issue, DATA/BDAT finalisation) also clears the forward
paths, so the implication holds initially and is preserved by every
session step, for every behaviour of the external collaborators. -/
theorem c10_no_forward_paths_without_reverse_path
    (ap : String → Option String)
    (peD : List String → Option String → String → Option SMTPResponse)
    (peB : List String → Option String → List Nat → Option SMTPResponse)
    (s : SrvState) (h : SrvReachable ap peD peB s) : srvInv s := by
  induction h with
  | init peerName => intro _; rfl
  | step hr hstep ih => exact sessionStep_inv _ _ _ _ _ _ _ _ ih hstep

theorem c10_no_forward_paths_without_reverse_path_witness :
    srvInv (initialSrvState "peer.example") :=
  c10_no_forward_paths_without_reverse_path (fun _ => none)
    (fun _ _ _ => none) (fun _ _ _ => none) (initialSrvState "peer.example")
    (SrvReachable.init "peer.example")

/-- C2: with client identity and reverse path set, the standard
angle-bracketed form `RCPT TO:<postmaster@foo>` is *not* rejected: the
postmaster gate compares the raw argument after `TO:` (which still
carries the angle bracket) against `postmaster`/`postmaster@...`, so the
session replies 250 and appends `postmaster@foo` to the forward paths,
while only the bracket-less form `RCPT TO:postmaster@foo` earns the 551
the claim requires. -/
theorem c2_postmaster_bracketed_accepted :
    sessionStep addrparseSpec (fun _ _ _ => none) (fun _ _ _ => none)
      ⟨some "client.example", some "ESMTP", some "a@x", [], [], "peer"⟩
      ⟨"RCPT TO:<postmaster@foo>\r\n", [], []⟩ =
      some (⟨some "client.example", some "ESMTP", some "a@x",
        ["postmaster@foo"], [], "peer"⟩,
        [SMTPResponse.mkNew 250 "UwU emails!"], true) ∧
    sessionStep addrparseSpec (fun _ _ _ => none) (fun _ _ _ => none)
      ⟨some "client.example", some "ESMTP", some "a@x", [], [], "peer"⟩
      ⟨"RCPT TO:postmaster@foo\r\n", [], []⟩ =
      some (⟨some "client.example", some "ESMTP", some "a@x", [], [], "peer"⟩,
        [SMTPResponse.mkNew 551 "Go email noc@as207960.net instead"], true) :=
  ⟨by decide, by decide⟩

/-- C9: a line with no tokens (a bare CRLF, or whitespace only) makes
`SMTPCommand::parse` call `unwrap` on `None`, which panics and kills the
session without any reply - the dispatcher never reaches the 500 path
the claim describes. -/
theorem c9_empty_line_panics :
    (∀ (ap : String → Option String)
      (peD : List String → Option String → String → Option SMTPResponse)
      (peB : List String → Option String → List Nat → Option SMTPResponse)
      (st : SrvState) (body : List String) (bytes : List Nat),
      sessionStep ap peD peB st ⟨"\r\n", body, bytes⟩ = none) ∧
    SMTPCommand.parse "\r\n" = none ∧
    splitAsciiWs "\r\n" = [] := by
  refine ⟨?_, rfl, rfl⟩
  intro ap peD peB st body bytes
  rfl


end WhoisEmail
